import Mathlib

/-!
# better-sqlite3: the virtual-table bridge and the session's error / lifecycle state

A shallow embedding of `src/util/custom-table.cpp` (class `CustomTable`: `xBestIndex`,
`xFilter`, `xNext`, `xEof`, `xRowid`, `PropagateJSError`) and of the parts of
`src/objects/database.cpp` that own the session flags (`ThrowDatabaseError`,
`CloseHandles`, `Log`, `JS_exec`, `JS_table`, `JS_close`).

Conventions of the embedding

* A C `int` that is only used as a bit mask (`idxNum`) is represented by its 32-bit
  two's-complement pattern, a `Nat` below `2 ^ 32`; `&` and `|` are `&&&` and `|||`.
* `1 << i` is defined by C++ only for `0 <= i < 32`.  For larger `i` the result is
  whatever the machine produces; it is supplied by the parameter `ub`
  (see `shl1`), so that no general theorem depends on one particular machine.  An
  example that needs a particular machine names it (`sampleShift`).
* `assert(...)` is compiled out of release builds; the asserted condition is kept as
  a separate predicate and appears as a hypothesis or a conclusion of the theorems.
* Host (JavaScript) values are an abstract type `JS`; engine values an abstract
  type `SV`.
* Effects that leave the object a method works on (an exception thrown into the host,
  a call of the generator, a handle released) are returned next to the new state.
-/

namespace BetterSqlite3

/-! ## Constants of `sqlite3.h` used by the bridge -/

/-- Status code `SQLITE_OK` of sqlite3.h. -/
def SQLITE_OK : Int := 0

/-- Status code `SQLITE_ERROR` of sqlite3.h. -/
def SQLITE_ERROR : Int := 1

/-- Status code `SQLITE_CONSTRAINT` of sqlite3.h. -/
def SQLITE_CONSTRAINT : Int := 19

/-- Operator code `SQLITE_INDEX_CONSTRAINT_EQ` of sqlite3.h. -/
def SQLITE_INDEX_CONSTRAINT_EQ : Nat := 2

/-- Operator code `SQLITE_INDEX_CONSTRAINT_LIMIT` of sqlite3.h. -/
def SQLITE_INDEX_CONSTRAINT_LIMIT : Nat := 73

/-- Operator code `SQLITE_INDEX_CONSTRAINT_OFFSET` of sqlite3.h. -/
def SQLITE_INDEX_CONSTRAINT_OFFSET : Nat := 74

/-! ## Data model -/

/-- One entry of `sqlite3_index_info.aConstraint`: `iColumn` is a C `int`
(`-1` for the rowid), `op` an `unsigned char`, `usable` an `unsigned char`
read only through `!item.usable`. -/
structure sqlite3_index_constraint where
  iColumn : Int
  op : Nat
  usable : Bool
deriving DecidableEq, Repr

/-- One entry of `sqlite3_index_info.aConstraintUsage`; `omit_` is the C field
`omit` (a reserved word here). -/
structure sqlite3_index_constraint_usage where
  argvIndex : Nat
  omit_ : Nat
deriving DecidableEq, Repr

/-- The fields of `sqlite3_index_info` that `xBestIndex` reads or writes.
`nConstraint` is the length of `aConstraint`; the engine allocates
`aConstraintUsage` with the same length.  `estimatedCost` is a `double` in C; every
value the bridge stores in it is an integer below `2 ^ 53`, so it is kept as an
integer. -/
structure sqlite3_index_info where
  aConstraint : List sqlite3_index_constraint
  aConstraintUsage : List sqlite3_index_constraint_usage
  idxNum : Nat
  estimatedCost : Int
  estimatedRows : Int
deriving DecidableEq, Repr

/-- Outcome of one call of the host iterator's `next()`: an empty `MaybeLocal`
(the call threw) or a record `{done, value}`. -/
inductive NextResult (JS : Type) where
  | threw : NextResult JS
  | record (done : Bool) (value : JS) : NextResult JS

/-- A host iterator object together with its `next` method.  The object is stateful:
`results k` is what the `k`-th call of `next()` yields and `calls` counts the calls
made so far. -/
structure HostIterator (JS : Type) where
  results : Nat → NextResult JS
  calls : Nat

/-- Class `CustomTable::VTab`.  `generator args` is `none` when the generator
function throws.  `zErrMsg` is `base.zErrMsg`. -/
structure VTab (JS : Type) where
  parameter_names : List String
  safe_ints : Bool
  generator : List JS → Option (HostIterator JS)
  zErrMsg : Option String

/-- Field `parameter_count`, initialised by the constructor to
`parameter_names.size()` and constant afterwards. -/
def VTab.parameter_count {JS : Type} (vtab : VTab JS) : Nat :=
  vtab.parameter_names.length

/-! ## `xBestIndex` -/

/-- The 32-bit pattern of the C expression `1 << i`.  For `i >= 32` C++ leaves the
result undefined; `ub i` stands for what the machine produces there. -/
def shl1 (ub : Nat → Nat) (i : Nat) : Nat :=
  if i < 32 then 2 ^ i else ub i % 2 ^ 32

/-- The text built by `sqlite3_mprintf` for a parameter constrained by an operator
other than equality. -/
def constraintMessage (name : String) : String :=
  "virtual table parameter \"" ++ name ++ "\" can only be constrained by the \x27=\x27 operator"

/-- What the first loop of `xBestIndex` ends with: an early `return` (with the new
`zErrMsg` when it was replaced) or the vector `forwarded`. -/
inductive Collected where
  | fail (status : Int) (zErrMsg : Option String) : Collected
  | forwarded (pairs : List (Nat × Nat)) : Collected
deriving DecidableEq, Repr

/-- The first loop of `xBestIndex` (lines 297-324), from constraint number `i` on, with
the pairs `(iColumn, i)` pushed so far. -/
def collect (parameter_names : List String) :
    List sqlite3_index_constraint → Nat → List (Nat × Nat) → Collected
  | [], _, forwarded => Collected.forwarded forwarded
  | item :: rest, i, forwarded =>
    if item.op = SQLITE_INDEX_CONSTRAINT_LIMIT ∨ item.op = SQLITE_INDEX_CONSTRAINT_OFFSET then
      collect parameter_names rest (i + 1) forwarded
    else if 0 ≤ item.iColumn ∧ item.iColumn < (parameter_names.length : Int) then
      if item.op ≠ SQLITE_INDEX_CONSTRAINT_EQ then
        Collected.fail SQLITE_ERROR
          (some (constraintMessage (parameter_names.getD item.iColumn.toNat "")))
      else if item.usable = false then
        Collected.fail SQLITE_CONSTRAINT none
      else
        collect parameter_names rest (i + 1) (forwarded ++ [(item.iColumn.toNat, i)])
    else
      collect parameter_names rest (i + 1) forwarded

/-- The order `operator<` gives `std::pair<int, int>`, as a non-strict relation:
by first component, then by second. -/
def pairLE (a b : Nat × Nat) : Prop :=
  a.1 < b.1 ∨ (a.1 = b.1 ∧ a.2 ≤ b.2)

instance pairLE_decidable : DecidableRel pairLE :=
  fun a b => inferInstanceAs (Decidable (a.1 < b.1 ∨ (a.1 = b.1 ∧ a.2 ≤ b.2)))

instance pairLE_total : IsTotal (Nat × Nat) pairLE :=
  ⟨fun a b => by unfold pairLE; omega⟩

instance pairLE_trans : IsTrans (Nat × Nat) pairLE :=
  ⟨fun a b c h1 h2 => by unfold pairLE at *; omega⟩

instance pairLE_antisymm : IsAntisymm (Nat × Nat) pairLE :=
  ⟨fun a b h1 h2 => by
    unfold pairLE at h1 h2
    exact Prod.ext (by omega) (by omega)⟩

/-- The call `std::sort(forwarded.begin(), forwarded.end())`.  The order is total and
antisymmetric, so the sorted vector does not depend on the sorting algorithm
(see `sortForwarded_unique`). -/
def sortForwarded (forwarded : List (Nat × Nat)) : List (Nat × Nat) :=
  forwarded.insertionSort pairLE

/-- The variables the second loop of `xBestIndex` updates. -/
structure PlanState where
  idxNum : Nat
  aConstraintUsage : List sqlite3_index_constraint_usage
  argument_count : Nat
deriving DecidableEq, Repr

/-- Body of the second loop of `xBestIndex` (lines 328-335) for one pair. -/
def forwardStep (ub : Nat → Nat) (st : PlanState) (pair : Nat × Nat) : PlanState :=
  let bit := shl1 ub pair.1
  if st.idxNum &&& bit = 0 then
    { idxNum := st.idxNum ||| bit
      aConstraintUsage :=
        st.aConstraintUsage.set pair.2 { argvIndex := st.argument_count + 1, omit_ := 1 }
      argument_count := st.argument_count + 1 }
  else st

/-- The second loop of `xBestIndex`. -/
def forwardLoop (ub : Nat → Nat) (st : PlanState) (pairs : List (Nat × Nat)) : PlanState :=
  pairs.foldl (forwardStep ub) st

/-- What `xBestIndex` leaves behind: the returned status, the table (its `zErrMsg` may
have been replaced) and the `sqlite3_index_info` it was given. -/
structure BestIndexResult (JS : Type) where
  status : Int
  vtab : VTab JS
  output : sqlite3_index_info

/-- The method `CustomTable::xBestIndex`. -/
def xBestIndex {JS : Type} (ub : Nat → Nat) (vtab : VTab JS) (output : sqlite3_index_info) :
    BestIndexResult JS :=
  match collect vtab.parameter_names output.aConstraint 0 [] with
  | Collected.fail status msg =>
    { status := status
      vtab := match msg with
        | some m => { vtab with zErrMsg := some m }
        | none => vtab
      output := output }
  | Collected.forwarded forwarded =>
    let st := forwardLoop ub
      { idxNum := output.idxNum, aConstraintUsage := output.aConstraintUsage, argument_count := 0 }
      (sortForwarded forwarded)
    { status := SQLITE_OK
      vtab := vtab
      output :=
        { output with
          idxNum := st.idxNum
          aConstraintUsage := st.aConstraintUsage
          estimatedCost := ((1000000000 / (st.argument_count + 1) : Nat) : Int)
          estimatedRows := ((1000000000 / (st.argument_count + 1) : Nat) : Int) } }


/-! ## Session state (`src/objects/database.cpp`) -/

/-- What `sqlite3_errmsg` and `sqlite3_extended_errcode` read from the engine handle
`db_handle`. -/
structure sqlite3 where
  errmsg : String
  extended_errcode : Int
deriving DecidableEq, Repr

/-- An exception thrown into the host by the session's methods. -/
inductive Exception where
  | SqliteError (message : String) (code : Int) : Exception
  | ResourceStateError : Exception
deriving DecidableEq, Repr

/-- Class `Database`: the data members the modelled methods read or write.  `stmts`
and `backups` are the sets of live `Statement` and `Backup` objects, by identity.
`is_open` is the member `open` (a reserved word here). -/
structure Database where
  db_handle : sqlite3
  is_open : Bool
  busy : Bool
  safe_ints : Bool
  unsafe_mode : Bool
  was_js_error : Bool
  has_logger : Bool
  iterators : Nat
  stmts : List Nat
  backups : List Nat
deriving DecidableEq, Repr

/-- The state outside the `Database` object that closing touches: whether `addon->dbs`
(the registry of open sessions) holds the object, the statements and backups on
which `CloseHandles` has run, and the number of `sqlite3_close(db_handle)` calls. -/
structure Effects where
  in_dbs : Bool
  closed_stmts : List Nat
  closed_backups : List Nat
  sqlite3_close_calls : Nat
deriving DecidableEq, Repr

/-- The method `Database::CloseHandles`. -/
def Database.CloseHandles (db : Database) (fx : Effects) : Database × Effects :=
  if db.is_open then
    ({ db with is_open := false, stmts := [], backups := [] },
     { fx with
       closed_stmts := fx.closed_stmts ++ db.stmts
       closed_backups := fx.closed_backups ++ db.backups
       sqlite3_close_calls := fx.sqlite3_close_calls + 1 })
  else (db, fx)

/-- The two-argument `Database::ThrowSqliteError(addon, db_handle)`: the exception it
throws, built from the handle's message and extended code. -/
def Database.ThrowSqliteError (db_handle : sqlite3) : Exception :=
  Exception.SqliteError db_handle.errmsg db_handle.extended_errcode

/-- The method `Database::ThrowDatabaseError`: the new session state and the
exceptions the call itself throws. -/
def Database.ThrowDatabaseError (db : Database) : Database × List Exception :=
  if db.was_js_error then ({ db with was_js_error := false }, [])
  else (db, [Database.ThrowSqliteError db.db_handle])

/-- Modelled from the spec: the macro `REQUIRE_DATABASE_NOT_BUSY`, defined outside
src/.  The operation is refused with a resource-state error while `busy`. -/
def REQUIRE_DATABASE_NOT_BUSY (db : Database) : Option Exception :=
  if db.busy then some Exception.ResourceStateError else none

/-- Modelled from the spec: the macro `REQUIRE_DATABASE_NO_ITERATORS`, defined outside
src/.  The operation is refused with a resource-state error while the count of live
iterators is not zero. -/
def REQUIRE_DATABASE_NO_ITERATORS (db : Database) : Option Exception :=
  if db.iterators ≠ 0 then some Exception.ResourceStateError else none

/-- The method `Database::JS_close`: the exception thrown, if any, and the state
afterwards. -/
def Database.JS_close (db : Database) (fx : Effects) : Option Exception × Database × Effects :=
  if db.is_open then
    match REQUIRE_DATABASE_NOT_BUSY db with
    | some e => (some e, db, fx)
    | none =>
      match REQUIRE_DATABASE_NO_ITERATORS db with
      | some e => (some e, db, fx)
      | none =>
        let r := db.CloseHandles { fx with in_dbs := false }
        (none, r.1, r.2)
  else (none, db, fx)

/-! ## Cursor methods (`src/util/custom-table.cpp`) -/

/-- The condition `CustomTable::PropagateJSError` asserts on entry. -/
def PropagateJSError_asserts (db : Database) : Prop :=
  db.was_js_error = false

/-- The method `CustomTable::PropagateJSError`, acting on the owning session. -/
def PropagateJSError (db : Database) : Database :=
  { db with was_js_error := true }

/-- Modelled from the spec: the value-marshalling primitive `Data::GetValueJS` and the
host operations `IsNull` and `v8::Undefined`, all defined outside src/. -/
structure Host (SV JS : Type) where
  GetValueJS : SV → Bool → JS
  IsNull : JS → Bool
  Undefined : JS

/-- Class `CustomTable::Cursor`.  `iterator` stands for the two handles `iterator` and
`next`, which are empty until `xFilter` stores them; `row` is empty until the first
row is stored.  `rowid` is a `sqlite_int64`, kept as an unbounded integer: a scan would
need `2 ^ 63` advances to overflow it. -/
structure Cursor (JS : Type) where
  iterator : Option (HostIterator JS)
  row : Option JS
  done : Bool
  rowid : Int

/-- The cursor `xOpen` creates with `new Cursor()`. -/
def xOpen (JS : Type) : Cursor JS :=
  { iterator := none, row := none, done := false, rowid := 0 }

/-- What a cursor method leaves behind: the returned status, the cursor and the
session. -/
structure StepResult (JS : Type) where
  status : Int
  cursor : Cursor JS
  db : Database

/-- The method `CustomTable::xNext`.  The result is `none` when the handles are empty
(the call through an empty handle has no defined behaviour). -/
def xNext {JS : Type} (cursor : Cursor JS) (db : Database) : Option (StepResult JS) :=
  match cursor.iterator with
  | none => none
  | some iterator =>
    let called : Cursor JS :=
      { cursor with iterator := some { iterator with calls := iterator.calls + 1 } }
    match iterator.results iterator.calls with
    | NextResult.threw =>
      some { status := SQLITE_ERROR, cursor := called, db := PropagateJSError db }
    | NextResult.record done value =>
      some
        { status := SQLITE_OK
          cursor :=
            { called with
              row := if done then called.row else some value
              done := done
              rowid := called.rowid + 1 }
          db := db }

/-- The method `CustomTable::xEof`. -/
def xEof {JS : Type} (cursor : Cursor JS) : Int :=
  if cursor.done then 1 else 0

/-- The method `CustomTable::xRowid`: the status and the value stored in `*output`. -/
def xRowid {JS : Type} (cursor : Cursor JS) : Int × Int :=
  (SQLITE_OK, cursor.rowid)

/-- What the argument loop of `xFilter` ends with: the early return on a NULL
argument, or the filled array `args`. -/
inductive Converted (JS : Type) where
  | nullArgument : Converted JS
  | args (values : List JS) : Converted JS

/-- The argument loop of `xFilter` (lines 195-208) with `n` parameters left, at
parameter `i`, with `argn` values of `argv` consumed and the entries of `args` filled
so far.  The result is `none` when `argv[argn]` lies outside `argv`. -/
def convertArgs {SV JS : Type} (H : Host SV JS) (ub : Nat → Nat) (safe_ints : Bool)
    (idxNum : Nat) (argv : List SV) : Nat → Nat → Nat → List JS → Option (Converted JS)
  | 0, _, _, args => some (Converted.args args)
  | n + 1, i, argn, args =>
    if idxNum &&& shl1 ub i ≠ 0 then
      match argv[argn]? with
      | none => none
      | some value =>
        if H.IsNull (H.GetValueJS value safe_ints) then some Converted.nullArgument
        else
          convertArgs H ub safe_ints idxNum argv n (i + 1) (argn + 1)
            (args ++ [H.GetValueJS value safe_ints])
    else convertArgs H ub safe_ints idxNum argv n (i + 1) argn (args ++ [H.Undefined])

/-- What `xFilter` leaves behind.  `generatorCall` records the argument list of the call
of the generator function, when the call was made. -/
structure FilterResult (JS : Type) where
  status : Int
  cursor : Cursor JS
  db : Database
  generatorCall : Option (List JS)

/-- The method `CustomTable::xFilter`. -/
def xFilter {SV JS : Type} (H : Host SV JS) (ub : Nat → Nat) (vtab : VTab JS)
    (cursor : Cursor JS) (db : Database) (idxNum : Nat) (argv : List SV) :
    Option (FilterResult JS) :=
  let converted :=
    if vtab.parameter_count ≠ 0 then
      convertArgs H ub vtab.safe_ints idxNum argv vtab.parameter_count 0 0 []
    else some (Converted.args [])
  match converted with
  | none => none
  | some Converted.nullArgument =>
    some { status := SQLITE_OK, cursor := { cursor with done := true }, db := db,
           generatorCall := none }
  | some (Converted.args args) =>
    match vtab.generator args with
    | none =>
      some { status := SQLITE_ERROR, cursor := cursor, db := PropagateJSError db,
             generatorCall := some args }
    | some iterator =>
      match xNext { cursor with iterator := some iterator, rowid := 0 } db with
      | none => none
      | some r =>
        some { status := r.status, cursor := r.cursor, db := r.db, generatorCall := some args }

/-- Modelled from the spec: the engine's side of a scan after `xFilter`, which lives
outside src/: while `xEof` is zero it reads the row (here its `xRowid` and the stored
row) and calls `xNext`, stopping at the first status other than `SQLITE_OK`.  `fuel`
bounds the number of rows visited. -/
def scanRows {JS : Type} : Nat → Cursor JS → Database → List (Int × Option JS)
  | 0, _, _ => []
  | fuel + 1, cursor, db =>
    if xEof cursor ≠ 0 then []
    else
      ((xRowid cursor).2, cursor.row) ::
        match xNext cursor db with
        | none => []
        | some r => if r.status = SQLITE_OK then scanRows fuel r.cursor r.db else []

/-- Modelled from the spec: one scan as the engine drives it, `xFilter` followed by
`xNext` until `xEof`; the rows visited, or `none` when `xFilter` has no defined
result. -/
def scan {SV JS : Type} (H : Host SV JS) (ub : Nat → Nat) (vtab : VTab JS)
    (cursor : Cursor JS) (db : Database) (idxNum : Nat) (argv : List SV) (fuel : Nat) :
    Option (List (Int × Option JS)) :=
  match xFilter H ub vtab cursor db idxNum argv with
  | none => none
  | some r => if r.status = SQLITE_OK then some (scanRows fuel r.cursor r.db) else some []

/-! ## Vocabulary of the specification -/

/-- A constraint is on a parameter column: `0 <= iColumn < parameter_count`. -/
def onParameterColumn (parameter_count : Nat) (c : sqlite3_index_constraint) : Prop :=
  0 ≤ c.iColumn ∧ c.iColumn < (parameter_count : Int)

instance onParameterColumn_decidable (parameter_count : Nat) :
    DecidablePred (onParameterColumn parameter_count) :=
  fun c => inferInstanceAs (Decidable (0 ≤ c.iColumn ∧ c.iColumn < (parameter_count : Int)))

/-- A constraint the planner looks at: its operator is neither LIMIT nor OFFSET and it
is on a parameter column. -/
def relevant (parameter_count : Nat) (c : sqlite3_index_constraint) : Prop :=
  c.op ≠ SQLITE_INDEX_CONSTRAINT_LIMIT ∧ c.op ≠ SQLITE_INDEX_CONSTRAINT_OFFSET ∧
    onParameterColumn parameter_count c

instance relevant_decidable (parameter_count : Nat) : DecidablePred (relevant parameter_count) :=
  fun c => inferInstanceAs (Decidable (c.op ≠ SQLITE_INDEX_CONSTRAINT_LIMIT ∧
    c.op ≠ SQLITE_INDEX_CONSTRAINT_OFFSET ∧ onParameterColumn parameter_count c))

/-- A relevant constraint that is not an equality, or is an equality the planner marked
not usable. -/
def offending (parameter_count : Nat) (c : sqlite3_index_constraint) : Prop :=
  relevant parameter_count c ∧ (c.op ≠ SQLITE_INDEX_CONSTRAINT_EQ ∨ c.usable = false)

instance offending_decidable (parameter_count : Nat) : DecidablePred (offending parameter_count) :=
  fun c => inferInstanceAs (Decidable (relevant parameter_count c ∧
    (c.op ≠ SQLITE_INDEX_CONSTRAINT_EQ ∨ c.usable = false)))

/-- A usable equality constraint on parameter `i`. -/
def usableEqualityOn (i : Nat) (c : sqlite3_index_constraint) : Prop :=
  c.op = SQLITE_INDEX_CONSTRAINT_EQ ∧ c.usable = true ∧ c.iColumn = (i : Int)

instance usableEqualityOn_decidable (i : Nat) : DecidablePred (usableEqualityOn i) :=
  fun c => inferInstanceAs (Decidable (c.op = SQLITE_INDEX_CONSTRAINT_EQ ∧ c.usable = true ∧
    c.iColumn = (i : Int)))

/-- Parameter `i` is bound by the constraint list: some constraint of the list is a
usable equality on it. -/
def bound (cs : List sqlite3_index_constraint) (i : Nat) : Prop :=
  ∃ c ∈ cs, usableEqualityOn i c

instance bound_decidable (cs : List sqlite3_index_constraint) : DecidablePred (bound cs) :=
  fun i => inferInstanceAs (Decidable (∃ c ∈ cs, usableEqualityOn i c))

/-- The bound parameters of a table with `parameter_count` parameters, in ascending
order. -/
def boundParameters (parameter_count : Nat) (cs : List sqlite3_index_constraint) : List Nat :=
  (List.range parameter_count).filter (fun i => decide (bound cs i))

/-- The number of the lowest-numbered usable equality constraint on parameter `i`
(the length of the list when there is none). -/
def chosenConstraint (cs : List sqlite3_index_constraint) (i : Nat) : Nat :=
  cs.findIdx (fun c => decide (usableEqualityOn i c))

/-- Parameter `i` is one `xFilter` treats as bound: the test `idxNum & 1 << i`. -/
def treatedAsBound (ub : Nat → Nat) (idxNum : Nat) (i : Nat) : Prop :=
  idxNum &&& shl1 ub i ≠ 0

instance treatedAsBound_decidable (ub : Nat → Nat) (idxNum : Nat) :
    DecidablePred (treatedAsBound ub idxNum) :=
  fun i => inferInstanceAs (Decidable (idxNum &&& shl1 ub i ≠ 0))

/-- The number of `j < n` with `P j`. -/
def countBelow (P : Nat → Bool) (n : Nat) : Nat :=
  ((List.range n).filter P).length

/-- The position in `argv` of the value of parameter `i`: the number of parameters
below `i` that `xFilter` treats as bound. -/
def argvPosition (ub : Nat → Nat) (idxNum : Nat) (i : Nat) : Nat :=
  countBelow (fun j => decide (treatedAsBound ub idxNum j)) i

/-- The host iterator yields `n` rows and then reports `done`. -/
def producesRows {JS : Type} (iterator : HostIterator JS) (n : Nat) : Prop :=
  (∀ k, k < n → ∃ row, iterator.results (iterator.calls + k) = NextResult.record false row) ∧
    ∃ value, iterator.results (iterator.calls + n) = NextResult.record true value

/-! ## Sample inputs -/

/-- Host values of the examples. -/
inductive SampleJS where
  | undefined : SampleJS
  | null : SampleJS
  | number (n : Int) : SampleJS
  | array (xs : List Int) : SampleJS
deriving DecidableEq, Repr

/-- The host of the examples: engine values are `Option Int`, `none` being NULL. -/
def sampleHost : Host (Option Int) SampleJS where
  GetValueJS := fun v _ =>
    match v with
    | none => SampleJS.null
    | some n => SampleJS.number n
  IsNull := fun a => decide (a = SampleJS.null)
  Undefined := SampleJS.undefined

/-- A machine on which an out-of-range shift yields 0. -/
def sampleShift : Nat → Nat := fun _ => 0

/-- An iterator that yields the given rows and then reports `done`. -/
def sampleIterator (rows : List (List Int)) : HostIterator SampleJS where
  results := fun k =>
    match rows[k]? with
    | some row => NextResult.record false (SampleJS.array row)
    | none => NextResult.record true SampleJS.undefined
  calls := 0

/-- An iterator whose `next()` always throws. -/
def throwingIterator : HostIterator SampleJS where
  results := fun _ => NextResult.threw
  calls := 0

/-- The table of the end-to-end scenario: one parameter `id`, two rows for `id = 7`
and none otherwise. -/
def sampleTable : VTab SampleJS where
  parameter_names := ["id"]
  safe_ints := false
  generator := fun args =>
    if args = [SampleJS.number 7] then some (sampleIterator [[1, 10], [2, 20]])
    else some (sampleIterator [])
  zErrMsg := none

/-- A table with three parameters. -/
def sampleTable3 : VTab SampleJS where
  parameter_names := ["a", "b", "c"]
  safe_ints := false
  generator := fun _ => some (sampleIterator [])
  zErrMsg := none

/-- A table with 33 parameters. -/
def wideTable : VTab SampleJS where
  parameter_names := List.replicate 33 "p"
  safe_ints := false
  generator := fun _ => some (sampleIterator [])
  zErrMsg := none

/-- The `sqlite3_index_info` the engine hands to `xBestIndex` for a constraint list:
zeroed usage entries and `idxNum`, and the engine's default estimates. -/
def sampleInfo (cs : List sqlite3_index_constraint) : sqlite3_index_info where
  aConstraint := cs
  aConstraintUsage := cs.map (fun _ => { argvIndex := 0, omit_ := 0 })
  idxNum := 0
  estimatedCost := 5 * 10 ^ 98
  estimatedRows := 25

/-- Constraints of the example plan: equalities on `c`, `a` and `c` again, a
greater-than on an ordinary column and a LIMIT. -/
def sampleConstraints : List sqlite3_index_constraint :=
  [{ iColumn := 2, op := 2, usable := true }, { iColumn := 0, op := 2, usable := true },
   { iColumn := 2, op := 2, usable := true }, { iColumn := 5, op := 4, usable := true },
   { iColumn := 0, op := 73, usable := false }]

/-- The right-hand sides of `sampleConstraints`, by constraint number. -/
def sampleValues : Nat → Option Int
  | 0 => some 30
  | 1 => some 10
  | 2 => some 31
  | _ => some 0

/-- A freshly opened session. -/
def sampleDatabase : Database where
  db_handle := { errmsg := "SQL logic error", extended_errcode := 1 }
  is_open := true
  busy := false
  safe_ints := false
  unsafe_mode := false
  was_js_error := false
  has_logger := false
  iterators := 0
  stmts := [1, 2]
  backups := [3]

/-! ## Session methods that mark the session busy (`src/objects/database.cpp`) -/

/-- Modelled from the spec: the macro `REQUIRE_DATABASE_OPEN`, defined outside src/.
The operation is refused with a resource-state error after `close`. -/
def REQUIRE_DATABASE_OPEN (db : Database) : Option Exception :=
  if db.is_open then none else some Exception.ResourceStateError

/-- Modelled from the spec: the macro `REQUIRE_DATABASE_NO_ITERATORS_UNLESS_UNSAFE`,
defined outside src/: the check of `REQUIRE_DATABASE_NO_ITERATORS`, skipped when the
session is in unsafe mode. -/
def REQUIRE_DATABASE_NO_ITERATORS_UNLESS_UNSAFE (db : Database) : Option Exception :=
  if db.unsafe_mode then none else REQUIRE_DATABASE_NO_ITERATORS db

/-- The method `Database::Log`: the returned flag and the session afterwards.
`logger_throws` tells whether the call of the logger function came back empty. -/
def Database.Log (db : Database) (logger_throws : Bool) : Bool × Database :=
  if db.has_logger = false then (false, db)
  else (logger_throws, { db with was_js_error := logger_throws })

/-- What the engine and the host do with one statement of the source text of `exec`:
the status of `sqlite3_prepare_v2` and whether it produced a handle, whether a host
callback run by `sqlite3_prepare_v2` raised an error (the factory of a virtual table
called by `xConnect`, which then calls `PropagateJSError`), whether the logger throws,
whether a host callback run by `sqlite3_step` raised an error (which sets
`was_js_error` through `PropagateJSError`), and the status of `sqlite3_finalize`.
Host code run by the engine reaches the session only through its methods, which refuse
to run while `busy` is set; it does not write `busy`. -/
structure ExecStatement where
  prepare_status : Int
  handle : Bool
  prepare_host_error : Bool
  logger_throws : Bool
  host_error : Bool
  finalize_status : Int
deriving DecidableEq, Repr

/-- The `for (;;)` loop of `Database::JS_exec` (lines 230-244) over the statements left
in the source text: the final `status` and the session.  A host error raised inside
`sqlite3_prepare_v2` has set `was_js_error` before the handle is looked at.  At the end
of the text `sqlite3_prepare_v2` yields no handle and `SQLITE_OK`. -/
def execLoop : List ExecStatement → Database → Int × Database
  | [], db => (SQLITE_OK, db)
  | s :: rest, db =>
    let prepared := if s.prepare_host_error = true then PropagateJSError db else db
    if s.handle = false then (s.prepare_status, prepared)
    else if db.has_logger = true ∧ (prepared.Log s.logger_throws).1 = true then
      (-1, (prepared.Log s.logger_throws).2)
    else
      let logged := if db.has_logger = true then (prepared.Log s.logger_throws).2
        else prepared
      let stepped := if s.host_error = true then PropagateJSError logged else logged
      if s.finalize_status ≠ SQLITE_OK then (s.finalize_status, stepped)
      else execLoop rest stepped

/-- The method `Database::JS_exec`, its string argument taken as given: the exceptions
it throws and the session afterwards. -/
def Database.JS_exec (db : Database) (script : List ExecStatement) :
    List Exception × Database :=
  match REQUIRE_DATABASE_OPEN db with
  | some e => ([e], db)
  | none =>
    match REQUIRE_DATABASE_NOT_BUSY db with
    | some e => ([e], db)
    | none =>
      match REQUIRE_DATABASE_NO_ITERATORS_UNLESS_UNSAFE db with
      | some e => ([e], db)
      | none =>
        let r := execLoop script { db with busy := true }
        let cleared : Database := { r.2 with busy := false }
        if r.1 ≠ SQLITE_OK then (cleared.ThrowDatabaseError.2, cleared.ThrowDatabaseError.1)
        else ([], cleared)

/-- The method `Database::JS_table`, its arguments taken as given: the exceptions it
throws and the session afterwards.  `create_module_status` is the status of
`sqlite3_create_module_v2`. -/
def Database.JS_table (db : Database) (create_module_status : Int) :
    List Exception × Database :=
  match REQUIRE_DATABASE_OPEN db with
  | some e => ([e], db)
  | none =>
    match REQUIRE_DATABASE_NOT_BUSY db with
    | some e => ([e], db)
    | none =>
      match REQUIRE_DATABASE_NO_ITERATORS db with
      | some e => ([e], db)
      | none =>
        let marked : Database := { db with busy := true }
        let r := if create_module_status ≠ SQLITE_OK then marked.ThrowDatabaseError
          else (marked, [])
        (r.2, { r.1 with busy := false })

/-! ## Runs of `xNext` -/

/-- A run of `n` calls of `xNext` on a cursor, whatever their statuses: the cursor and
the session afterwards, or `none` when a call has no defined result. -/
def xNextTimes {JS : Type} : Nat → Cursor JS → Database → Option (Cursor JS × Database)
  | 0, cursor, db => some (cursor, db)
  | n + 1, cursor, db =>
    match xNext cursor db with
    | none => none
    | some r => xNextTimes n r.cursor r.db

/-! ## Vocabulary of the specification: plans -/

/-- The part of the state of the second loop of `xBestIndex` that does not depend on
constraint numbers, `(idxNum, argument_count)`, advanced by the column of one pair. -/
def columnStep (ub : Nat → Nat) (s : Nat × Nat) (p : Nat) : Nat × Nat :=
  if s.1 &&& shl1 ub p = 0 then (s.1 ||| shl1 ub p, s.2 + 1) else s

/-- The mask and the argument count of the second loop of `xBestIndex`, run over the
columns of the sorted vector. -/
def columnLoop (ub : Nat → Nat) (s : Nat × Nat) (cols : List Nat) : Nat × Nat :=
  cols.foldl (columnStep ub) s

/-- The number of usage entries that hold an argument position. -/
def assignedPositions (usage : List sqlite3_index_constraint_usage) : Nat :=
  usage.countP (fun e => decide (e.argvIndex ≠ 0))

/-- The usage array as the engine hands it to `xBestIndex`: one zeroed entry per
constraint. -/
def zeroedUsage (n : Nat) : List sqlite3_index_constraint_usage :=
  List.replicate n { argvIndex := 0, omit_ := 0 }

/-- Two constraint lists that differ only in constraints that are not relevant: at
every position the constraints are equal or neither is relevant. -/
def sameRelevant (parameter_count : Nat) (cs ds : List sqlite3_index_constraint) : Prop :=
  List.Forall₂ (fun c d => c = d ∨ (¬ relevant parameter_count c ∧ ¬ relevant parameter_count d))
    cs ds

/-! ## Sample inputs: iterators -/

/-- An iterator that reports `done` on the first call of `next()` and yields a row on
every later call. -/
def resumingIterator : HostIterator SampleJS where
  results := fun k =>
    if k = 0 then NextResult.record true SampleJS.undefined
    else NextResult.record false (SampleJS.array [1])
  calls := 0

/-- An iterator that yields one row, then throws, then reports `done` for ever. -/
def faultyIterator : HostIterator SampleJS where
  results := fun k =>
    if k = 0 then NextResult.record false (SampleJS.array [1])
    else if k = 1 then NextResult.threw
    else NextResult.record true SampleJS.undefined
  calls := 0

/-! ## Counting below a bound, and bits of the mask -/

theorem countBelow_succ (P : Nat → Bool) (n : Nat) :
    countBelow P (n + 1) = countBelow P n + (if P n = true then 1 else 0) := by
  unfold countBelow
  rw [List.range_succ, List.filter_append, List.length_append]
  cases h : P n <;> simp [h]

theorem countBelow_congr (P Q : Nat → Bool) (n : Nat) (h : ∀ j, j < n → P j = Q j) :
    countBelow P n = countBelow Q n := by
  induction n with
  | zero => rfl
  | succ n ih =>
    rw [countBelow_succ, countBelow_succ, ih (fun j hj => h j (by omega)), h n (by omega)]

theorem countBelow_eq_zero (P : Nat → Bool) (n : Nat) (h : ∀ j, j < n → P j = false) :
    countBelow P n = 0 := by
  induction n with
  | zero => rfl
  | succ n ih =>
    rw [countBelow_succ, ih (fun j hj => h j (by omega)), h n (by omega)]
    simp

/-- Adding one new index `p0` below `n` to a predicate raises the count by one. -/
theorem countBelow_insert (P Q : Nat → Bool) (p0 n : Nat) (hp0 : p0 < n)
    (hQ : Q p0 = false) (hP : ∀ j, P j = (decide (j = p0) || Q j)) :
    countBelow P n = countBelow Q n + 1 := by
  induction n with
  | zero => omega
  | succ n ih =>
    rw [countBelow_succ, countBelow_succ]
    by_cases hn : p0 = n
    · subst hn
      have h1 : countBelow P p0 = countBelow Q p0 := by
        apply countBelow_congr
        intro j hj
        rw [hP j]
        have : ¬ j = p0 := by omega
        simp [this]
      rw [h1, hP p0, hQ]
      simp
    · rw [ih (by omega), hP n]
      have : ¬ n = p0 := fun h => hn h.symm
      simp only [this, decide_False, Bool.false_or]
      omega

/-- The `k`-th member of the ascending list of the `j < n` with `P j` has exactly `k`
such members below it. -/
theorem filter_range_getElem (P : Nat → Bool) (n : Nat) :
    ∀ (k : Nat) (hk : k < ((List.range n).filter P).length),
      ((List.range n).filter P)[k] < n ∧ P ((List.range n).filter P)[k] = true ∧
      countBelow P ((List.range n).filter P)[k] = k := by
  induction n with
  | zero => intro k hk; simp at hk
  | succ n ih =>
    intro k hk
    have hsplit : (List.range (n + 1)).filter P =
        (List.range n).filter P ++ (if P n = true then [n] else []) := by
      rw [List.range_succ, List.filter_append]
      cases h : P n <;> simp [h]
    have hk' : k < ((List.range n).filter P ++ (if P n = true then [n] else [])).length := by
      rw [← hsplit]; exact hk
    have hget : ((List.range (n + 1)).filter P)[k] =
        ((List.range n).filter P ++ (if P n = true then [n] else []))[k] := by
      congr 1
    rw [hget]
    by_cases hlt : k < ((List.range n).filter P).length
    · rw [List.getElem_append_left hlt]
      obtain ⟨h1, h2, h3⟩ := ih k hlt
      exact ⟨by omega, h2, h3⟩
    · have hPn : P n = true := by
        by_contra hPn
        rw [if_neg hPn, List.append_nil] at hk'
        exact hlt hk'
      have hkeq : k = ((List.range n).filter P).length := by
        rw [List.length_append, if_pos hPn] at hk'
        simp at hk'
        omega
      have hval : ((List.range n).filter P ++ (if P n = true then [n] else []))[k] = n := by
        rw [List.getElem_append_right (by omega)]
        simp [hPn]
      rw [hval]
      exact ⟨by omega, hPn, hkeq.symm⟩

theorem shl1_of_lt (ub : Nat → Nat) {i : Nat} (h : i < 32) : shl1 ub i = 2 ^ i := by
  unfold shl1
  rw [if_pos h]

theorem and_two_pow_eq_zero (m i : Nat) : m &&& 2 ^ i = 0 ↔ m.testBit i = false := by
  rw [Nat.and_two_pow]
  cases h : m.testBit i
  · simp
  · simp

theorem testBit_or_two_pow (m i b : Nat) :
    (m ||| 2 ^ i).testBit b = (m.testBit b || decide (i = b)) := by
  rw [Nat.testBit_or, Nat.testBit_two_pow]

theorem treatedAsBound_iff_testBit (ub : Nat → Nat) (idxNum : Nat) {i : Nat} (hi : i < 32) :
    treatedAsBound ub idxNum i ↔ idxNum.testBit i = true := by
  unfold treatedAsBound
  rw [shl1_of_lt ub hi, Ne, and_two_pow_eq_zero]
  cases idxNum.testBit i <;> simp

/-! ## The argument loop of `xFilter` and the engine's scan -/

theorem argvPosition_succ (ub : Nat → Nat) (idxNum i : Nat) :
    argvPosition ub idxNum (i + 1) =
      argvPosition ub idxNum i + (if treatedAsBound ub idxNum i then 1 else 0) := by
  unfold argvPosition
  rw [countBelow_succ]
  by_cases h : treatedAsBound ub idxNum i <;> simp [h]

theorem argvPosition_mono (ub : Nat → Nat) (idxNum : Nat) {i j : Nat} (h : i ≤ j) :
    argvPosition ub idxNum i ≤ argvPosition ub idxNum j := by
  induction j, h using Nat.le_induction with
  | base => exact le_rfl
  | succ k _ ih => rw [argvPosition_succ]; omega

theorem argvPosition_lt (ub : Nat → Nat) (idxNum : Nat) {i j : Nat} (h : i < j)
    (hb : treatedAsBound ub idxNum i) :
    argvPosition ub idxNum i < argvPosition ub idxNum j := by
  have h1 := argvPosition_mono ub idxNum (Nat.succ_le_of_lt h)
  rw [argvPosition_succ, if_pos hb] at h1
  omega

/-- The argument loop stops at the first bound parameter whose value is NULL. -/
theorem convertArgs_null {SV JS : Type} (H : Host SV JS) (ub : Nat → Nat) (safe_ints : Bool)
    (idxNum : Nat) (argv : List SV) (i : Nat) (v : SV)
    (hb : treatedAsBound ub idxNum i)
    (hv : argv[argvPosition ub idxNum i]? = some v)
    (hnull : H.IsNull (H.GetValueJS v safe_ints) = true) :
    ∀ (n i0 : Nat) (args : List JS), i0 ≤ i → i < i0 + n →
      convertArgs H ub safe_ints idxNum argv n i0 (argvPosition ub idxNum i0) args =
        some Converted.nullArgument := by
  intro n
  induction n with
  | zero => intro i0 args h1 h2; omega
  | succ n ih =>
    intro i0 args h1 h2
    unfold convertArgs
    by_cases hb0 : treatedAsBound ub idxNum i0
    · have hb0' : idxNum &&& shl1 ub i0 ≠ 0 := hb0
      rw [if_pos hb0']
      have hlen : argvPosition ub idxNum i < argv.length := by
        rcases List.getElem?_eq_some.mp hv with ⟨hl, _⟩
        exact hl
      have hle := argvPosition_mono ub idxNum h1
      have hlt : argvPosition ub idxNum i0 < argv.length := lt_of_le_of_lt hle hlen
      rw [List.getElem?_eq_getElem hlt]
      simp only
      by_cases hn : H.IsNull (H.GetValueJS argv[argvPosition ub idxNum i0] safe_ints) = true
      · rw [if_pos hn]
      · rw [if_neg hn]
        have hne : i0 ≠ i := by
          intro he
          subst he
          rw [List.getElem?_eq_getElem hlt] at hv
          injection hv with hv
          rw [hv] at hn
          exact hn hnull
        have hstep : argvPosition ub idxNum i0 + 1 = argvPosition ub idxNum (i0 + 1) := by
          rw [argvPosition_succ, if_pos hb0]
        rw [hstep]
        exact ih (i0 + 1) _ (by omega) (by omega)
    · have hb0' : ¬ (idxNum &&& shl1 ub i0 ≠ 0) := hb0
      rw [if_neg hb0']
      have hne : i0 ≠ i := by
        intro he
        subst he
        exact hb0 hb
      have hstep : argvPosition ub idxNum i0 = argvPosition ub idxNum (i0 + 1) := by
        rw [argvPosition_succ, if_neg hb0]
        rfl
      rw [hstep]
      exact ih (i0 + 1) _ (by omega) (by omega)

/-- The argument loop runs to its end when every bound parameter has a value in `argv`
that is not NULL: entry `i` of `args` is then the converted value for a bound parameter
and `undefined` for the others. -/
theorem convertArgs_all {SV JS : Type} (H : Host SV JS) (ub : Nat → Nat) (safe_ints : Bool)
    (idxNum : Nat) (argv : List SV) (f : Nat → JS) :
    ∀ (n i0 : Nat) (args : List JS),
      (∀ i, i0 ≤ i → i < i0 + n →
        (treatedAsBound ub idxNum i →
          ∃ v, argv[argvPosition ub idxNum i]? = some v ∧
            H.IsNull (H.GetValueJS v safe_ints) = false ∧ f i = H.GetValueJS v safe_ints) ∧
        (¬ treatedAsBound ub idxNum i → f i = H.Undefined)) →
      convertArgs H ub safe_ints idxNum argv n i0 (argvPosition ub idxNum i0) args =
        some (Converted.args (args ++ (List.range' i0 n).map f)) := by
  intro n
  induction n with
  | zero =>
    intro i0 args _
    simp [convertArgs]
  | succ n ih =>
    intro i0 args h
    obtain ⟨hb, hnb⟩ := h i0 le_rfl (by omega)
    have hrest : ∀ i, i0 + 1 ≤ i → i < i0 + 1 + n →
        (treatedAsBound ub idxNum i →
          ∃ v, argv[argvPosition ub idxNum i]? = some v ∧
            H.IsNull (H.GetValueJS v safe_ints) = false ∧ f i = H.GetValueJS v safe_ints) ∧
        (¬ treatedAsBound ub idxNum i → f i = H.Undefined) :=
      fun i h1 h2 => h i (by omega) (by omega)
    unfold convertArgs
    rw [List.range'_succ, List.map_cons]
    by_cases hb0 : treatedAsBound ub idxNum i0
    · have hb0' : idxNum &&& shl1 ub i0 ≠ 0 := hb0
      obtain ⟨v, hv, hnn, hf⟩ := hb hb0
      rw [if_pos hb0', hv]
      simp only [hnn, Bool.false_eq_true, if_false]
      have hstep : argvPosition ub idxNum i0 + 1 = argvPosition ub idxNum (i0 + 1) := by
        rw [argvPosition_succ, if_pos hb0]
      rw [hstep, ih (i0 + 1) _ hrest, hf]
      simp
    · have hb0' : ¬ (idxNum &&& shl1 ub i0 ≠ 0) := hb0
      rw [if_neg hb0']
      have hstep : argvPosition ub idxNum i0 = argvPosition ub idxNum (i0 + 1) := by
        rw [argvPosition_succ, if_neg hb0]
        rfl
      rw [hstep, ih (i0 + 1) _ hrest, hnb hb0]
      simp

/-- Once the argument loop has filled `args`, `xFilter` calls the generator with
them. -/
theorem xFilter_calls_generator {SV JS : Type} (H : Host SV JS) (ub : Nat → Nat)
    (vtab : VTab JS) (cursor : Cursor JS) (db : Database) (idxNum : Nat) (argv : List SV)
    (args : List JS)
    (hconv : (if vtab.parameter_count ≠ 0 then
        convertArgs H ub vtab.safe_ints idxNum argv vtab.parameter_count 0 0 []
      else some (Converted.args [])) = some (Converted.args args)) :
    ∃ r, xFilter H ub vtab cursor db idxNum argv = some r ∧ r.generatorCall = some args := by
  unfold xFilter
  simp only [hconv]
  cases hg : vtab.generator args with
  | none => exact ⟨_, rfl, rfl⟩
  | some iterator =>
    simp only [xNext]
    cases iterator.results iterator.calls with
    | threw => exact ⟨_, rfl, rfl⟩
    | record done value => exact ⟨_, rfl, rfl⟩

/-- What `xFilter` does once the generator has returned an iterator. -/
theorem xFilter_generator_path {SV JS : Type} (H : Host SV JS) (ub : Nat → Nat)
    (vtab : VTab JS) (cursor : Cursor JS) (db : Database) (idxNum : Nat) (argv : List SV)
    (r0 : FilterResult JS) (args : List JS) (iterator : HostIterator JS)
    (hfilter : xFilter H ub vtab cursor db idxNum argv = some r0)
    (hcall : r0.generatorCall = some args)
    (hgen : vtab.generator args = some iterator) :
    ∃ r, xNext { cursor with iterator := some iterator, rowid := 0 } db = some r ∧
      r0 = { status := r.status, cursor := r.cursor, db := r.db, generatorCall := some args } := by
  unfold xFilter at hfilter
  simp only at hfilter
  split at hfilter
  · exact absurd hfilter (by simp)
  · injection hfilter with hfilter
    subst hfilter
    exact absurd hcall (by simp)
  · rename_i a _
    split at hfilter
    · rename_i hg
      injection hfilter with hfilter
      subst hfilter
      simp only [Option.some.injEq] at hcall
      subst hcall
      rw [hgen] at hg
      exact absurd hg (by simp)
    · rename_i it hg
      split at hfilter
      · exact absurd hfilter (by simp)
      · rename_i r hr
        injection hfilter with hfilter
        subst hfilter
        simp only [Option.some.injEq] at hcall
        subst hcall
        rw [hgen] at hg
        injection hg with hg
        subst hg
        exact ⟨r, hr, rfl⟩

theorem producesRows_tail {JS : Type} (iterator : HostIterator JS) (n : Nat)
    (h : producesRows iterator (n + 1)) :
    producesRows { iterator with calls := iterator.calls + 1 } n := by
  obtain ⟨h1, v, h2⟩ := h
  refine ⟨?_, v, ?_⟩
  · intro k hk
    obtain ⟨row, hrow⟩ := h1 (k + 1) (by omega)
    refine ⟨row, ?_⟩
    simpa [Nat.add_assoc, Nat.add_comm 1 k] using hrow
  · simpa [Nat.add_assoc, Nat.add_comm 1 n] using h2

/-- From a cursor that stands on a row, with `n` more rows to come, the scan visits
`n + 1` rows whose rowids count up from the cursor's rowid. -/
theorem scanRows_rowids {JS : Type} (n : Nat) :
    ∀ (fuel : Nat) (cursor : Cursor JS) (db : Database) (iterator : HostIterator JS),
      cursor.iterator = some iterator → cursor.done = false → producesRows iterator n →
      n < fuel →
      (scanRows fuel cursor db).map Prod.fst =
        (List.range (n + 1)).map (fun (k : Nat) => cursor.rowid + (k : Int)) := by
  induction n with
  | zero =>
    intro fuel cursor db iterator hit hdone hp hfuel
    obtain ⟨_, v, hv⟩ := hp
    simp only [Nat.add_zero] at hv
    cases fuel with
    | zero => omega
    | succ f =>
      unfold scanRows
      simp only [xEof, hdone, xNext, hit, hv, xRowid]
      cases f with
      | zero => simp [scanRows, List.range_succ]
      | succ g => simp [scanRows, xEof, List.range_succ]
  | succ n ih =>
    intro fuel cursor db iterator hit hdone hp hfuel
    have hp' := producesRows_tail iterator n hp
    obtain ⟨h1, _⟩ := hp
    obtain ⟨row, hrow⟩ := h1 0 (by omega)
    simp only [Nat.add_zero] at hrow
    cases fuel with
    | zero => omega
    | succ f =>
      unfold scanRows
      simp only [xEof, hdone, xNext, hit, hrow, xRowid]
      have hrec := ih f
        { iterator := some { iterator with calls := iterator.calls + 1 }
          row := some row, done := false, rowid := cursor.rowid + 1 } db
        { iterator with calls := iterator.calls + 1 } rfl rfl hp' (by omega)
      simp only [Bool.false_eq_true, if_false, ne_eq, not_true_eq_false, List.map_cons] at hrec ⊢
      rw [List.range_succ_eq_map (n + 1)]
      simp only [List.map_cons, List.map_map, if_true]
      rw [hrec]
      simp only [Nat.cast_zero, add_zero, List.cons.injEq, true_and]
      apply List.map_congr_left
      intro k _
      simp only [Function.comp, Nat.succ_eq_add_one, Nat.cast_add, Nat.cast_one]
      ring

/-! ## Planning: the first loop of `xBestIndex` -/

/-- The pairs the first loop pushes for a list without offending constraint, numbered
from `i`. -/
theorem collect_of_no_offending (names : List String) :
    ∀ (cs : List sqlite3_index_constraint) (i : Nat) (forwarded : List (Nat × Nat)),
      (∀ c ∈ cs, ¬ offending names.length c) →
      ∃ pairs, collect names cs i forwarded = Collected.forwarded (forwarded ++ pairs) ∧
        (∀ p j, (p, j) ∈ pairs ↔
          ∃ c, cs[j - i]? = some c ∧ i ≤ j ∧ relevant names.length c ∧ c.iColumn = (p : Int)) ∧
        (pairs.map Prod.snd).Nodup := by
  intro cs
  induction cs with
  | nil =>
    intro i forwarded _
    exact ⟨[], by simp [collect], by simp, by simp⟩
  | cons item rest ih =>
    intro i forwarded hno
    have hitem := hno item (List.mem_cons_self _ _)
    have hrest : ∀ c ∈ rest, ¬ offending names.length c :=
      fun c hc => hno c (List.mem_cons_of_mem _ hc)
    -- membership in the tail's pairs, shifted by one
    have shift : ∀ (pairs : List (Nat × Nat)),
        (∀ p j, (p, j) ∈ pairs ↔ ∃ c, rest[j - (i + 1)]? = some c ∧ i + 1 ≤ j ∧
          relevant names.length c ∧ c.iColumn = (p : Int)) →
        ∀ p j, (p, j) ∈ pairs ↔ (∃ c, (item :: rest)[j - i]? = some c ∧ i ≤ j ∧
          relevant names.length c ∧ c.iColumn = (p : Int)) ∧ j ≠ i := by
      intro pairs hp p j
      rw [hp p j]
      constructor
      · rintro ⟨c, h1, h2, h3, h4⟩
        refine ⟨⟨c, ?_, by omega, h3, h4⟩, by omega⟩
        have : j - i = (j - (i + 1)) + 1 := by omega
        rw [this, List.getElem?_cons_succ]
        exact h1
      · rintro ⟨⟨c, h1, h2, h3, h4⟩, hne⟩
        refine ⟨c, ?_, by omega, h3, h4⟩
        have : j - i = (j - (i + 1)) + 1 := by omega
        rw [this, List.getElem?_cons_succ] at h1
        exact h1
    unfold collect
    by_cases hlim : item.op = SQLITE_INDEX_CONSTRAINT_LIMIT ∨
        item.op = SQLITE_INDEX_CONSTRAINT_OFFSET
    · rw [if_pos hlim]
      obtain ⟨pairs, h1, h2, h3⟩ := ih (i + 1) forwarded hrest
      refine ⟨pairs, h1, ?_, h3⟩
      intro p j
      rw [shift pairs h2 p j]
      constructor
      · exact fun h => h.1
      · intro h
        refine ⟨h, ?_⟩
        rintro rfl
        obtain ⟨c, hc, _, hr, _⟩ := h
        simp only [Nat.sub_self, List.getElem?_cons_zero, Option.some.injEq] at hc
        subst hc
        rcases hlim with hl | hl
        · exact hr.1 hl
        · exact hr.2.1 hl
    · rw [if_neg hlim]
      by_cases hcol : 0 ≤ item.iColumn ∧ item.iColumn < (names.length : Int)
      · rw [if_pos hcol]
        have hrel : relevant names.length item := by
          refine ⟨fun h => hlim (Or.inl h), fun h => hlim (Or.inr h), hcol⟩
        have heq : item.op = SQLITE_INDEX_CONSTRAINT_EQ := by
          by_contra h
          exact hitem ⟨hrel, Or.inl h⟩
        have hus : ¬ item.usable = false := fun h => hitem ⟨hrel, Or.inr h⟩
        rw [if_neg (not_not.mpr heq), if_neg hus]
        obtain ⟨pairs, h1, h2, h3⟩ := ih (i + 1) (forwarded ++ [(item.iColumn.toNat, i)]) hrest
        have hnd : (((item.iColumn.toNat, i) :: pairs).map Prod.snd).Nodup := by
          rw [List.map_cons, List.nodup_cons]
          refine ⟨?_, h3⟩
          intro hmem
          obtain ⟨⟨p, j⟩, hpj, hj⟩ := List.mem_map.mp hmem
          simp only at hj
          subst hj
          obtain ⟨_, _, hle, _⟩ := (h2 p j).mp hpj
          omega
        refine ⟨(item.iColumn.toNat, i) :: pairs, by simpa using h1, ?_, hnd⟩
        intro p j
        rw [List.mem_cons, shift pairs h2 p j]
        constructor
        · rintro (h | h)
          · simp only [Prod.mk.injEq] at h
            obtain ⟨hp, hj⟩ := h
            subst hj
            refine ⟨item, by simp, le_rfl, hrel, ?_⟩
            rw [hp]
            exact (Int.toNat_of_nonneg hcol.1).symm
          · exact h.1
        · intro h
          by_cases hj : j = i
          · left
            subst hj
            obtain ⟨c, hc, _, _, hcp⟩ := h
            simp only [Nat.sub_self, List.getElem?_cons_zero, Option.some.injEq] at hc
            subst hc
            simp only [Prod.mk.injEq, and_true]
            rw [hcp]
            simp
          · right
            exact ⟨h, hj⟩
      · rw [if_neg hcol]
        obtain ⟨pairs, h1, h2, h3⟩ := ih (i + 1) forwarded hrest
        refine ⟨pairs, h1, ?_, h3⟩
        intro p j
        rw [shift pairs h2 p j]
        constructor
        · exact fun h => h.1
        · intro h
          refine ⟨h, ?_⟩
          rintro rfl
          obtain ⟨c, hc, _, hr, _⟩ := h
          simp only [Nat.sub_self, List.getElem?_cons_zero, Option.some.injEq] at hc
          subst hc
          exact hcol hr.2.2

/-- The first loop returns at the first offending constraint: `SQLITE_ERROR` with the
message naming the parameter when it is not an equality, `SQLITE_CONSTRAINT` when it is
an unusable equality. -/
theorem collect_first_offending (names : List String) :
    ∀ (pre : List sqlite3_index_constraint) (c : sqlite3_index_constraint)
      (post : List sqlite3_index_constraint) (i : Nat) (forwarded : List (Nat × Nat)),
      (∀ d ∈ pre, ¬ offending names.length d) → offending names.length c →
      collect names (pre ++ c :: post) i forwarded =
        if c.op ≠ SQLITE_INDEX_CONSTRAINT_EQ then
          Collected.fail SQLITE_ERROR (some (constraintMessage (names.getD c.iColumn.toNat "")))
        else Collected.fail SQLITE_CONSTRAINT none := by
  intro pre
  induction pre with
  | nil =>
    intro c post i forwarded _ hc
    obtain ⟨⟨h1, h2, h3⟩, h4⟩ := hc
    have hlim : ¬ (c.op = SQLITE_INDEX_CONSTRAINT_LIMIT ∨
        c.op = SQLITE_INDEX_CONSTRAINT_OFFSET) := by
      rintro (h | h)
      · exact h1 h
      · exact h2 h
    have hcol : 0 ≤ c.iColumn ∧ c.iColumn < (names.length : Int) := h3
    simp only [List.nil_append]
    unfold collect
    rw [if_neg hlim, if_pos hcol]
    by_cases heq : c.op = SQLITE_INDEX_CONSTRAINT_EQ
    · have hus : c.usable = false := by
        rcases h4 with h | h
        · exact absurd heq h
        · exact h
      rw [if_neg (not_not.mpr heq), if_pos hus, if_neg (not_not.mpr heq)]
    · rw [if_pos heq, if_pos heq]
  | cons item rest ih =>
    intro c post i forwarded hpre hc
    have hitem := hpre item (List.mem_cons_self _ _)
    have hrest : ∀ d ∈ rest, ¬ offending names.length d :=
      fun d hd => hpre d (List.mem_cons_of_mem _ hd)
    simp only [List.cons_append]
    unfold collect
    by_cases hlim : item.op = SQLITE_INDEX_CONSTRAINT_LIMIT ∨
        item.op = SQLITE_INDEX_CONSTRAINT_OFFSET
    · rw [if_pos hlim]
      exact ih c post (i + 1) forwarded hrest hc
    · rw [if_neg hlim]
      by_cases hcol : 0 ≤ item.iColumn ∧ item.iColumn < (names.length : Int)
      · rw [if_pos hcol]
        have hrel : relevant names.length item :=
          ⟨fun h => hlim (Or.inl h), fun h => hlim (Or.inr h), hcol⟩
        have heq : item.op = SQLITE_INDEX_CONSTRAINT_EQ := by
          by_contra h
          exact hitem ⟨hrel, Or.inl h⟩
        have hus : ¬ item.usable = false := fun h => hitem ⟨hrel, Or.inr h⟩
        rw [if_neg (not_not.mpr heq), if_neg hus]
        exact ih c post (i + 1) _ hrest hc
      · rw [if_neg hcol]
        exact ih c post (i + 1) forwarded hrest hc

/-- A list with an offending constraint splits at its first offending constraint. -/
theorem exists_first_offending (n : Nat) (cs : List sqlite3_index_constraint)
    (h : ∃ c ∈ cs, offending n c) :
    ∃ pre c post, cs = pre ++ c :: post ∧ (∀ d ∈ pre, ¬ offending n d) ∧ offending n c := by
  induction cs with
  | nil => simp at h
  | cons item rest ih =>
    by_cases hitem : offending n item
    · exact ⟨[], item, rest, rfl, by simp, hitem⟩
    · have h' : ∃ c ∈ rest, offending n c := by
        obtain ⟨c, hc, hoff⟩ := h
        rcases List.mem_cons.mp hc with rfl | hc
        · exact absurd hoff hitem
        · exact ⟨c, hc, hoff⟩
      obtain ⟨pre, c, post, h1, h2, h3⟩ := ih h'
      refine ⟨item :: pre, c, post, by simp [h1], ?_, h3⟩
      intro d hd
      rcases List.mem_cons.mp hd with rfl | hd
      · exact hitem
      · exact h2 d hd

/-- A list that holds an offending constraint `c` splits at its first offending
constraint, which is `c` itself or comes before `c`. -/
theorem first_offending_cases (n : Nat) (pre : List sqlite3_index_constraint)
    (c : sqlite3_index_constraint) (post : List sqlite3_index_constraint)
    (hc : offending n c) :
    ∃ p d q, pre ++ c :: post = p ++ d :: q ∧ (∀ x ∈ p, ¬ offending n x) ∧ offending n d ∧
      ((d = c ∧ p = pre) ∨ d ∈ pre) := by
  by_cases h : ∃ x ∈ pre, offending n x
  · obtain ⟨p, d, q, h1, h2, h3⟩ := exists_first_offending n pre h
    refine ⟨p, d, q ++ c :: post, by simp [h1], h2, h3, Or.inr ?_⟩
    rw [h1]
    simp
  · refine ⟨pre, c, post, rfl, ?_, hc, Or.inl ⟨rfl, rfl⟩⟩
    intro x hx hoff
    exact h ⟨x, hx, hoff⟩

/-- The outcome of `xBestIndex` on a list whose first offending constraint is `c`: the
status is decided by `c`, the message names the parameter of `c` when `c` is not an
equality, and the `sqlite3_index_info` is left as it was. -/
theorem xBestIndex_first_offending {JS : Type} (ub : Nat → Nat) (vtab : VTab JS)
    (info : sqlite3_index_info) (pre : List sqlite3_index_constraint)
    (c : sqlite3_index_constraint) (post : List sqlite3_index_constraint)
    (hcs : info.aConstraint = pre ++ c :: post)
    (hpre : ∀ d ∈ pre, ¬ offending vtab.parameter_count d)
    (hc : offending vtab.parameter_count c) :
    (xBestIndex ub vtab info).output = info ∧
    (c.op ≠ SQLITE_INDEX_CONSTRAINT_EQ →
      (xBestIndex ub vtab info).status = SQLITE_ERROR ∧
      (xBestIndex ub vtab info).vtab.zErrMsg =
        some (constraintMessage (vtab.parameter_names.getD c.iColumn.toNat ""))) ∧
    (c.op = SQLITE_INDEX_CONSTRAINT_EQ →
      (xBestIndex ub vtab info).status = SQLITE_CONSTRAINT ∧
      (xBestIndex ub vtab info).vtab = vtab) := by
  have hcol := collect_first_offending vtab.parameter_names pre c post 0 [] hpre hc
  unfold xBestIndex
  rw [hcs, hcol]
  by_cases heq : c.op = SQLITE_INDEX_CONSTRAINT_EQ
  · rw [if_neg (not_not.mpr heq)]
    exact ⟨rfl, fun h => absurd heq h, fun _ => ⟨rfl, rfl⟩⟩
  · rw [if_pos heq]
    exact ⟨rfl, fun _ => ⟨rfl, rfl⟩, fun h => absurd h heq⟩

/-- A successful plan has no offending constraint. -/
theorem no_offending_of_ok {JS : Type} (ub : Nat → Nat) (vtab : VTab JS)
    (info : sqlite3_index_info) (hok : (xBestIndex ub vtab info).status = SQLITE_OK) :
    ∀ c ∈ info.aConstraint, ¬ offending vtab.parameter_count c := by
  intro c hc hoff
  obtain ⟨pre, d, post, h1, h2, h3⟩ :=
    exists_first_offending vtab.parameter_count info.aConstraint ⟨c, hc, hoff⟩
  obtain ⟨_, herr, hcon⟩ := xBestIndex_first_offending ub vtab info pre d post h1 h2 h3
  by_cases hd : d.op = SQLITE_INDEX_CONSTRAINT_EQ
  · rw [(hcon hd).1] at hok
    exact absurd hok (by decide)
  · rw [(herr hd).1] at hok
    exact absurd hok (by decide)

/-- Without offending constraint, a relevant constraint on column `p` is a usable
equality on parameter `p`, and conversely. -/
theorem relevant_iff_usableEqualityOn (n : Nat) (c : sqlite3_index_constraint) (p : Nat)
    (hno : ¬ offending n c) :
    (relevant n c ∧ c.iColumn = (p : Int)) ↔ (p < n ∧ usableEqualityOn p c) := by
  constructor
  · rintro ⟨hrel, hcol⟩
    have h3 := hrel.2.2
    unfold onParameterColumn at h3
    refine ⟨by omega, ?_, ?_, hcol⟩
    · by_contra h
      exact hno ⟨hrel, Or.inl h⟩
    · cases hu : c.usable
      · exact absurd ⟨hrel, Or.inr hu⟩ hno
      · rfl
  · rintro ⟨hp, heq, _, hcol⟩
    refine ⟨⟨?_, ?_, ?_⟩, hcol⟩
    · rw [heq]; decide
    · rw [heq]; decide
    · unfold onParameterColumn
      omega

/-- The lowest-numbered usable equality on a bound parameter. -/
theorem chosenConstraint_spec (cs : List sqlite3_index_constraint) (p : Nat)
    (hb : bound cs p) :
    ∃ c, cs[chosenConstraint cs p]? = some c ∧ usableEqualityOn p c ∧
      ∀ k d, cs[k]? = some d → usableEqualityOn p d → chosenConstraint cs p ≤ k := by
  have hlt : chosenConstraint cs p < cs.length := by
    unfold chosenConstraint
    apply List.findIdx_lt_length_of_exists
    obtain ⟨c, hc, hu⟩ := hb
    exact ⟨c, hc, decide_eq_true hu⟩
  refine ⟨cs[chosenConstraint cs p], List.getElem?_eq_getElem hlt, ?_, ?_⟩
  · have h := @List.findIdx_getElem _ (fun c => decide (usableEqualityOn p c)) cs hlt
    exact of_decide_eq_true h
  · intro k d hk hd
    by_contra hlt'
    have hk' : k < List.findIdx (fun c => decide (usableEqualityOn p c)) cs := by
      unfold chosenConstraint at hlt'
      omega
    have h := List.not_of_lt_findIdx hk'
    obtain ⟨hkl, hkd⟩ := List.getElem?_eq_some.mp hk
    rw [hkd] at h
    simp only [decide_eq_false_iff_not] at h
    exact h hd

theorem boundParameters_mem (n : Nat) (cs : List sqlite3_index_constraint) (p : Nat) :
    p ∈ boundParameters n cs ↔ p < n ∧ bound cs p := by
  unfold boundParameters
  simp [List.mem_filter]

/-! ## Planning: the sorted vector and the second loop of `xBestIndex` -/

theorem sortForwarded_sorted (l : List (Nat × Nat)) : (sortForwarded l).Sorted pairLE :=
  List.sorted_insertionSort pairLE l

theorem sortForwarded_perm (l : List (Nat × Nat)) : (sortForwarded l).Perm l :=
  List.perm_insertionSort pairLE l

/-- Whatever algorithm `std::sort` runs, its result is `sortForwarded`: a sorted
rearrangement of the vector is unique. -/
theorem sortForwarded_unique (l s : List (Nat × Nat)) (hperm : s.Perm l)
    (hsorted : s.Sorted pairLE) : s = sortForwarded l :=
  List.eq_of_perm_of_sorted (hperm.trans (sortForwarded_perm l).symm) hsorted
    (sortForwarded_sorted l)

theorem pairLE_fst_le {a b : Nat × Nat} (h : pairLE a b) : a.1 ≤ b.1 := by
  rcases h with h | h
  · exact Nat.le_of_lt h
  · exact Nat.le_of_eq h.1

theorem forwardStep_of_set (ub : Nat → Nat) (m : Nat) (u : List sqlite3_index_constraint_usage)
    (a p0 j0 : Nat) (hp0 : p0 < 32) (hbit : m.testBit p0 = true) :
    forwardStep ub { idxNum := m, aConstraintUsage := u, argument_count := a } (p0, j0) =
      { idxNum := m, aConstraintUsage := u, argument_count := a } := by
  unfold forwardStep
  simp only [shl1_of_lt ub hp0]
  have : ¬ (m &&& 2 ^ p0 = 0) := by
    rw [and_two_pow_eq_zero, hbit]
    simp
  rw [if_neg this]

theorem forwardStep_of_clear (ub : Nat → Nat) (m : Nat) (u : List sqlite3_index_constraint_usage)
    (a p0 j0 : Nat) (hp0 : p0 < 32) (hbit : m.testBit p0 = false) :
    forwardStep ub { idxNum := m, aConstraintUsage := u, argument_count := a } (p0, j0) =
      { idxNum := m ||| 2 ^ p0
        aConstraintUsage := u.set j0 { argvIndex := a + 1, omit_ := 1 }
        argument_count := a + 1 } := by
  unfold forwardStep
  simp only [shl1_of_lt ub hp0]
  have : m &&& 2 ^ p0 = 0 := (and_two_pow_eq_zero m p0).mpr hbit
  rw [if_pos this]

/-- The second loop on a sorted vector of pairs with distinct constraint numbers and
columns below 32, from any state: the mask gains exactly the columns of the vector;
the pair with the lowest constraint number of each column not yet in the mask gets the
next argument position, counted over the new columns below it; every other usage entry
is untouched. -/
theorem forwardLoop_spec (ub : Nat → Nat) :
    ∀ (L : List (Nat × Nat)), L.Sorted pairLE → (∀ x ∈ L, x.1 < 32) →
      (L.map Prod.snd).Nodup →
      ∀ (m : Nat) (u : List sqlite3_index_constraint_usage) (a : Nat),
        (∀ b, (forwardLoop ub { idxNum := m, aConstraintUsage := u, argument_count := a }
            L).idxNum.testBit b = (m.testBit b || decide (b ∈ L.map Prod.fst))) ∧
        (forwardLoop ub { idxNum := m, aConstraintUsage := u, argument_count := a }
            L).argument_count =
          a + countBelow (fun b => !m.testBit b && decide (b ∈ L.map Prod.fst)) 32 ∧
        (forwardLoop ub { idxNum := m, aConstraintUsage := u, argument_count := a }
            L).aConstraintUsage.length = u.length ∧
        (∀ p j, (p, j) ∈ L → m.testBit p = false → (∀ k, (p, k) ∈ L → j ≤ k) →
          j < u.length →
          (forwardLoop ub { idxNum := m, aConstraintUsage := u, argument_count := a }
              L).aConstraintUsage[j]? =
            some { argvIndex :=
                     a + 1 + countBelow (fun b => !m.testBit b && decide (b ∈ L.map Prod.fst)) p
                   omit_ := 1 }) ∧
        (∀ j, (¬ ∃ p, (p, j) ∈ L ∧ m.testBit p = false ∧ ∀ k, (p, k) ∈ L → j ≤ k) →
          (forwardLoop ub { idxNum := m, aConstraintUsage := u, argument_count := a }
              L).aConstraintUsage[j]? = u[j]?) := by
  intro L
  induction L with
  | nil =>
    intro _ _ _ m u a
    refine ⟨?_, ?_, rfl, ?_, ?_⟩
    · intro b; simp [forwardLoop]
    · have : countBelow (fun b => !m.testBit b && decide (b ∈ ([] : List (Nat × Nat)).map Prod.fst))
          32 = 0 := countBelow_eq_zero _ _ (by simp)
      rw [this]; rfl
    · intro p j h; simp at h
    · intro j _; rfl
  | cons x L ih =>
    obtain ⟨p0, j0⟩ := x
    intro hsorted hcols hnodup m u a
    rw [List.sorted_cons] at hsorted
    obtain ⟨hhead, hsortedL⟩ := hsorted
    have hp0 : p0 < 32 := hcols (p0, j0) (List.mem_cons_self _ _)
    have hcolsL : ∀ x ∈ L, x.1 < 32 := fun x hx => hcols x (List.mem_cons_of_mem _ hx)
    rw [List.map_cons, List.nodup_cons] at hnodup
    obtain ⟨hj0, hnodupL⟩ := hnodup
    have hj0' : ∀ p, (p, j0) ∉ L := by
      intro p hmem
      exact hj0 (List.mem_map.mpr ⟨(p, j0), hmem, rfl⟩)
    have hge : ∀ p k, (p, k) ∈ L → p0 ≤ p := fun p k hmem => pairLE_fst_le (hhead (p, k) hmem)
    have hstep : ∀ st, forwardLoop ub st ((p0, j0) :: L) =
        forwardLoop ub (forwardStep ub st (p0, j0)) L := fun _ => rfl
    have hmemcols : ∀ b, decide (b ∈ ((p0, j0) :: L).map Prod.fst) =
        (decide (b = p0) || decide (b ∈ L.map Prod.fst)) := by
      intro b
      simp only [List.map_cons, List.mem_cons, Bool.decide_or]
    -- the head pair is the lowest of its column
    have hhead_min : ∀ k, (p0, k) ∈ (p0, j0) :: L → j0 ≤ k := by
      intro k hk
      rcases List.mem_cons.mp hk with h | h
      · simp only [Prod.mk.injEq] at h; omega
      · rcases hhead (p0, k) h with h' | h'
        · exact absurd h' (lt_irrefl _)
        · exact h'.2
    rw [hstep]
    cases hbit : m.testBit p0 with
    | true =>
      rw [forwardStep_of_set ub m u a p0 j0 hp0 hbit]
      obtain ⟨i1, i2, i3, i4, i5⟩ := ih hsortedL hcolsL hnodupL m u a
      have hP : (fun b => !m.testBit b && decide (b ∈ ((p0, j0) :: L).map Prod.fst)) =
          (fun b => !m.testBit b && decide (b ∈ L.map Prod.fst)) := by
        funext b
        rw [hmemcols]
        by_cases hb : b = p0
        · subst hb; simp [hbit]
        · simp [hb]
      refine ⟨?_, ?_, i3, ?_, ?_⟩
      · intro b
        rw [i1 b, hmemcols]
        by_cases hb : b = p0
        · subst hb; simp [hbit]
        · simp [hb]
      · rw [hP]; exact i2
      · intro p j hmem hclear hmin hlen
        rw [hP]
        have hne : p ≠ p0 := by
          rintro rfl
          rw [hbit] at hclear
          exact Bool.noConfusion hclear
        have hmemL : (p, j) ∈ L := by
          rcases List.mem_cons.mp hmem with h | h
          · simp only [Prod.mk.injEq] at h; exact absurd h.1 hne
          · exact h
        exact i4 p j hmemL hclear (fun k hk => hmin k (List.mem_cons_of_mem _ hk)) hlen
      · intro j hno
        apply i5
        rintro ⟨p, hmem, hclear, hmin⟩
        apply hno
        refine ⟨p, List.mem_cons_of_mem _ hmem, hclear, ?_⟩
        intro k hk
        rcases List.mem_cons.mp hk with h | h
        · simp only [Prod.mk.injEq] at h
          rw [h.1, hbit] at hclear
          exact Bool.noConfusion hclear
        · exact hmin k h
    | false =>
      rw [forwardStep_of_clear ub m u a p0 j0 hp0 hbit]
      obtain ⟨i1, i2, i3, i4, i5⟩ := ih hsortedL hcolsL hnodupL (m ||| 2 ^ p0)
        (u.set j0 { argvIndex := a + 1, omit_ := 1 }) (a + 1)
      have hP : ∀ b, (!m.testBit b && decide (b ∈ ((p0, j0) :: L).map Prod.fst)) =
          (decide (b = p0) ||
            (!(m ||| 2 ^ p0).testBit b && decide (b ∈ L.map Prod.fst))) := by
        intro b
        rw [hmemcols, testBit_or_two_pow]
        by_cases hb : b = p0
        · subst hb; simp [hbit]
        · have hb' : ¬ p0 = b := fun h => hb h.symm
          simp [hb, hb']
      have hQ : (!(m ||| 2 ^ p0).testBit p0 && decide (p0 ∈ L.map Prod.fst)) = false := by
        rw [testBit_or_two_pow]; simp
      have hcount : ∀ n, p0 < n →
          countBelow (fun b => !m.testBit b && decide (b ∈ ((p0, j0) :: L).map Prod.fst)) n =
            countBelow (fun b => !(m ||| 2 ^ p0).testBit b && decide (b ∈ L.map Prod.fst)) n
              + 1 := by
        intro n hn
        exact countBelow_insert _ _ p0 n hn hQ hP
      refine ⟨?_, ?_, ?_, ?_, ?_⟩
      · intro b
        rw [i1 b, hmemcols, testBit_or_two_pow]
        by_cases hb : b = p0
        · subst hb; simp
        · have hb' : ¬ p0 = b := fun h => hb h.symm
          simp [hb, hb']
      · rw [i2, hcount 32 hp0]; omega
      · rw [i3, List.length_set]
      · intro p j hmem hclear hmin hlen
        by_cases hpj : (p, j) = (p0, j0)
        · simp only [Prod.mk.injEq] at hpj
          obtain ⟨rfl, rfl⟩ := hpj
          have hzero : countBelow
              (fun b => !m.testBit b && decide (b ∈ ((p, j) :: L).map Prod.fst)) p = 0 := by
            apply countBelow_eq_zero
            intro b hb
            rw [hmemcols]
            have h1 : ¬ b = p := by omega
            have h2 : b ∉ L.map Prod.fst := by
              intro hmemb
              obtain ⟨⟨q, k⟩, hqk, hq⟩ := List.mem_map.mp hmemb
              simp only at hq
              subst hq
              have := hge q k hqk
              omega
            simp [h1, h2]
          rw [hzero]
          have hnone : ¬ ∃ q, (q, j) ∈ L ∧ (m ||| 2 ^ p).testBit q = false ∧
              ∀ k, (q, k) ∈ L → j ≤ k := by
            rintro ⟨q, hq, _⟩
            exact hj0' q hq
          rw [i5 j hnone, List.getElem?_set_self hlen]
        · have hmemL : (p, j) ∈ L := by
            rcases List.mem_cons.mp hmem with h | h
            · exact absurd h hpj
            · exact h
          have hne : p ≠ p0 := by
            rintro rfl
            have h1 := hmin j0 (List.mem_cons_self _ _)
            have h2 := hhead_min j hmem
            have : j = j0 := by omega
            subst this
            exact hj0' p hmemL
          have hlt : p0 < p := by
            have := hge p j hmemL
            omega
          have hclear' : (m ||| 2 ^ p0).testBit p = false := by
            rw [testBit_or_two_pow, hclear]
            have : ¬ p0 = p := fun h => hne h.symm
            simp [this]
          have hjne : j0 ≠ j := by
            rintro rfl
            exact hj0' p hmemL
          have hlen' : j < (u.set j0 { argvIndex := a + 1, omit_ := 1 }).length := by
            rw [List.length_set]; exact hlen
          rw [i4 p j hmemL hclear' (fun k hk => hmin k (List.mem_cons_of_mem _ hk)) hlen',
            hcount p hlt]
          congr 2
          omega
      · intro j hno
        have hjne : j0 ≠ j := by
          rintro rfl
          exact hno ⟨p0, List.mem_cons_self _ _, hbit, hhead_min⟩
        have hnone : ¬ ∃ q, (q, j) ∈ L ∧ (m ||| 2 ^ p0).testBit q = false ∧
            ∀ k, (q, k) ∈ L → j ≤ k := by
          rintro ⟨q, hq, hclear, hmin⟩
          rw [testBit_or_two_pow] at hclear
          simp only [Bool.or_eq_false_iff, decide_eq_false_iff_not] at hclear
          apply hno
          refine ⟨q, List.mem_cons_of_mem _ hq, hclear.1, ?_⟩
          intro k hk
          rcases List.mem_cons.mp hk with h | h
          · simp only [Prod.mk.injEq] at h
            exact absurd h.1.symm hclear.2
          · exact hmin k h
        rw [i5 j hnone, List.getElem?_set_ne hjne]

/-- The finished plan, for a table of at most 32 parameters, a constraint list without
offending constraint and a zero `idxNum`. -/
theorem xBestIndex_plan {JS : Type} (ub : Nat → Nat) (vtab : VTab JS)
    (info : sqlite3_index_info) (hpc : vtab.parameter_count ≤ 32) (hzero : info.idxNum = 0)
    (hno : ∀ c ∈ info.aConstraint, ¬ offending vtab.parameter_count c) :
    (xBestIndex ub vtab info).status = SQLITE_OK ∧
    (xBestIndex ub vtab info).vtab = vtab ∧
    (xBestIndex ub vtab info).output.aConstraint = info.aConstraint ∧
    (∀ b, (xBestIndex ub vtab info).output.idxNum.testBit b =
      decide (b < vtab.parameter_count ∧ bound info.aConstraint b)) ∧
    (xBestIndex ub vtab info).output.aConstraintUsage.length = info.aConstraintUsage.length ∧
    (∀ p, p < vtab.parameter_count → bound info.aConstraint p →
      info.aConstraintUsage.length = info.aConstraint.length →
      (xBestIndex ub vtab info).output.aConstraintUsage[chosenConstraint info.aConstraint p]? =
        some { argvIndex := countBelow (fun b => decide (bound info.aConstraint b)) p + 1
               omit_ := 1 }) ∧
    (∀ j, (∀ p, p < vtab.parameter_count → bound info.aConstraint p →
        chosenConstraint info.aConstraint p ≠ j) →
      (xBestIndex ub vtab info).output.aConstraintUsage[j]? = info.aConstraintUsage[j]?) ∧
    (xBestIndex ub vtab info).output.estimatedCost =
      ((1000000000 / (countBelow (fun b => decide (bound info.aConstraint b))
        vtab.parameter_count + 1) : Nat) : Int) ∧
    (xBestIndex ub vtab info).output.estimatedRows =
      ((1000000000 / (countBelow (fun b => decide (bound info.aConstraint b))
        vtab.parameter_count + 1) : Nat) : Int) := by
  obtain ⟨pairs, hcollect, hmem, hnd⟩ :=
    collect_of_no_offending vtab.parameter_names info.aConstraint 0 [] hno
  simp only [List.nil_append, Nat.sub_zero, Nat.zero_le, true_and] at hcollect hmem
  -- membership in the sorted vector
  have hS : ∀ p j, (p, j) ∈ sortForwarded pairs ↔
      p < vtab.parameter_count ∧
        ∃ c, info.aConstraint[j]? = some c ∧ usableEqualityOn p c := by
    intro p j
    rw [(sortForwarded_perm pairs).mem_iff, hmem p j]
    constructor
    · rintro ⟨c, hc, hrel, hcol⟩
      have hcmem : c ∈ info.aConstraint := List.mem_iff_getElem?.mpr ⟨j, hc⟩
      have := (relevant_iff_usableEqualityOn vtab.parameter_count c p (hno c hcmem)).mp
        ⟨hrel, hcol⟩
      exact ⟨this.1, c, hc, this.2⟩
    · rintro ⟨hp, c, hc, hu⟩
      have hcmem : c ∈ info.aConstraint := List.mem_iff_getElem?.mpr ⟨j, hc⟩
      have := (relevant_iff_usableEqualityOn vtab.parameter_count c p (hno c hcmem)).mpr
        ⟨hp, hu⟩
      exact ⟨c, hc, this.1, this.2⟩
  have hcols : ∀ b, b ∈ (sortForwarded pairs).map Prod.fst ↔
      (b < vtab.parameter_count ∧ bound info.aConstraint b) := by
    intro b
    constructor
    · intro h
      obtain ⟨⟨p, j⟩, hpj, hp⟩ := List.mem_map.mp h
      simp only at hp
      subst hp
      obtain ⟨hp, c, hc, hu⟩ := (hS p j).mp hpj
      exact ⟨hp, c, List.mem_iff_getElem?.mpr ⟨j, hc⟩, hu⟩
    · rintro ⟨hb, c, hc, hu⟩
      obtain ⟨j, hj⟩ := List.mem_iff_getElem?.mp hc
      exact List.mem_map.mpr ⟨(b, j), (hS b j).mpr ⟨hb, c, hj, hu⟩, rfl⟩
  have hlt32 : ∀ x ∈ sortForwarded pairs, x.1 < 32 := by
    rintro ⟨p, j⟩ hx
    have := ((hS p j).mp hx).1
    simp only
    omega
  have hnodup : ((sortForwarded pairs).map Prod.snd).Nodup :=
    (((sortForwarded_perm pairs).map Prod.snd).nodup_iff).mpr hnd
  obtain ⟨l1, l2, l3, l4, l5⟩ := forwardLoop_spec ub (sortForwarded pairs)
    (sortForwarded_sorted pairs) hlt32 hnodup info.idxNum info.aConstraintUsage 0
  have hP : (fun b => !info.idxNum.testBit b &&
        decide (b ∈ (sortForwarded pairs).map Prod.fst)) =
      (fun b => decide (b < vtab.parameter_count ∧ bound info.aConstraint b)) := by
    funext b
    rw [hzero, Nat.zero_testBit]
    simp only [Bool.not_false, Bool.true_and]
    exact decide_eq_decide.mpr (hcols b)
  rw [hP] at l2 l4
  have hcnt : ∀ n, n ≤ vtab.parameter_count →
      countBelow (fun b => decide (b < vtab.parameter_count ∧ bound info.aConstraint b)) n =
        countBelow (fun b => decide (bound info.aConstraint b)) n := by
    intro n hn
    apply countBelow_congr
    intro j hj
    have : j < vtab.parameter_count := by omega
    simp [this]
  have hcnt32 :
      countBelow (fun b => decide (b < vtab.parameter_count ∧ bound info.aConstraint b)) 32 =
        countBelow (fun b => decide (bound info.aConstraint b)) vtab.parameter_count := by
    rw [← hcnt vtab.parameter_count le_rfl]
    have hmono : ∀ d, countBelow
        (fun b => decide (b < vtab.parameter_count ∧ bound info.aConstraint b))
          (vtab.parameter_count + d) =
        countBelow (fun b => decide (b < vtab.parameter_count ∧ bound info.aConstraint b))
          vtab.parameter_count := by
      intro d
      induction d with
      | zero => rfl
      | succ d ihd =>
        rw [← Nat.add_assoc, countBelow_succ, ihd]
        have : ¬ (vtab.parameter_count + d < vtab.parameter_count) := by omega
        simp [this]
    have h32 : 32 = vtab.parameter_count + (32 - vtab.parameter_count) := by omega
    rw [h32, hmono]
  have hx : xBestIndex ub vtab info =
      { status := SQLITE_OK
        vtab := vtab
        output :=
          { info with
            idxNum := (forwardLoop ub
              { idxNum := info.idxNum, aConstraintUsage := info.aConstraintUsage,
                argument_count := 0 } (sortForwarded pairs)).idxNum
            aConstraintUsage := (forwardLoop ub
              { idxNum := info.idxNum, aConstraintUsage := info.aConstraintUsage,
                argument_count := 0 } (sortForwarded pairs)).aConstraintUsage
            estimatedCost := ((1000000000 / ((forwardLoop ub
              { idxNum := info.idxNum, aConstraintUsage := info.aConstraintUsage,
                argument_count := 0 } (sortForwarded pairs)).argument_count + 1) : Nat) : Int)
            estimatedRows := ((1000000000 / ((forwardLoop ub
              { idxNum := info.idxNum, aConstraintUsage := info.aConstraintUsage,
                argument_count := 0 } (sortForwarded pairs)).argument_count + 1) : Nat) : Int) } } := by
    unfold xBestIndex
    rw [hcollect]
  rw [hx]
  simp only
  refine ⟨trivial, trivial, trivial, ?_, ?_, ?_, ?_, ?_, ?_⟩
  · intro b
    rw [l1 b, hzero, Nat.zero_testBit, Bool.false_or]
    exact decide_eq_decide.mpr (hcols b)
  · rw [l3]
  · intro p hp hb hlen
    obtain ⟨c, hc, hu, hmin⟩ := chosenConstraint_spec info.aConstraint p hb
    have hclt : chosenConstraint info.aConstraint p < info.aConstraintUsage.length := by
      rw [hlen]
      exact (List.getElem?_eq_some.mp hc).1
    have hin : (p, chosenConstraint info.aConstraint p) ∈ sortForwarded pairs :=
      (hS p _).mpr ⟨hp, c, hc, hu⟩
    have hmin' : ∀ k, (p, k) ∈ sortForwarded pairs →
        chosenConstraint info.aConstraint p ≤ k := by
      intro k hk
      obtain ⟨_, d, hd, hud⟩ := (hS p k).mp hk
      exact hmin k d hd hud
    rw [l4 p _ hin (by rw [hzero, Nat.zero_testBit]) hmin' hclt, hcnt p (Nat.le_of_lt hp)]
    congr 2
    omega
  · intro j hj
    apply l5
    rintro ⟨p, hin, _, hmin⟩
    obtain ⟨hp, d, hd, hud⟩ := (hS p j).mp hin
    have hb : bound info.aConstraint p := ⟨d, List.mem_iff_getElem?.mpr ⟨j, hd⟩, hud⟩
    obtain ⟨c, hc, hu, hcmin⟩ := chosenConstraint_spec info.aConstraint p hb
    have h1 : chosenConstraint info.aConstraint p ≤ j := hcmin j d hd hud
    have h2 : j ≤ chosenConstraint info.aConstraint p :=
      hmin _ ((hS p _).mpr ⟨hp, c, hc, hu⟩)
    exact hj p hp hb (by omega)
  · rw [l2, hcnt32, Nat.zero_add]
  · rw [l2, hcnt32, Nat.zero_add]

/-- On a successful plan from `idxNum = 0` for a table of at most 32 parameters, the
bits of `idxNum` are the bound parameters. -/
theorem plan_idxNum_testBit {JS : Type} (ub : Nat → Nat) (vtab : VTab JS)
    (info : sqlite3_index_info) (hpc : vtab.parameter_count ≤ 32) (hzero : info.idxNum = 0)
    (hok : (xBestIndex ub vtab info).status = SQLITE_OK) :
    ∀ b, (xBestIndex ub vtab info).output.idxNum.testBit b =
      decide (b < vtab.parameter_count ∧ bound info.aConstraint b) := by
  have hno := no_offending_of_ok ub vtab info hok
  obtain ⟨_, _, _, hbits, _⟩ := xBestIndex_plan ub vtab info hpc hzero hno
  exact hbits

/-- On such a plan `xFilter` treats a parameter as bound exactly when it is bound. -/
theorem plan_treatedAsBound_iff {JS : Type} (ub : Nat → Nat) (vtab : VTab JS)
    (info : sqlite3_index_info) (hpc : vtab.parameter_count ≤ 32) (hzero : info.idxNum = 0)
    (hok : (xBestIndex ub vtab info).status = SQLITE_OK) (i : Nat)
    (hi : i < vtab.parameter_count) :
    treatedAsBound ub (xBestIndex ub vtab info).output.idxNum i ↔ bound info.aConstraint i := by
  rw [treatedAsBound_iff_testBit ub _ (by omega), plan_idxNum_testBit ub vtab info hpc hzero hok i]
  simp [hi]

/-! ## The busy flag -/

theorem PropagateJSError_busy (db : Database) : (PropagateJSError db).busy = db.busy := rfl

theorem Log_busy (db : Database) (t : Bool) : (db.Log t).2.busy = db.busy := by
  unfold Database.Log
  by_cases h : db.has_logger = false
  · rw [if_pos h]
  · rw [if_neg h]

theorem execLoop_busy : ∀ (script : List ExecStatement) (db : Database),
    (execLoop script db).2.busy = db.busy := by
  intro script
  induction script with
  | nil => intro db; rfl
  | cons s rest ih =>
    intro db
    unfold execLoop
    simp only
    have h0 : (if s.prepare_host_error = true then PropagateJSError db else db).busy =
        db.busy := by
      by_cases hp : s.prepare_host_error = true
      · rw [if_pos hp]; rfl
      · rw [if_neg hp]
    by_cases hh : s.handle = false
    · rw [if_pos hh]; exact h0
    · rw [if_neg hh]
      by_cases hl : db.has_logger = true ∧
          ((if s.prepare_host_error = true then PropagateJSError db else db).Log
            s.logger_throws).1 = true
      · rw [if_pos hl, Log_busy]; exact h0
      · rw [if_neg hl]
        have h1 : (if db.has_logger = true then
              ((if s.prepare_host_error = true then PropagateJSError db else db).Log
                s.logger_throws).2
            else (if s.prepare_host_error = true then PropagateJSError db else db)).busy =
            db.busy := by
          by_cases hlog : db.has_logger = true
          · rw [if_pos hlog, Log_busy]; exact h0
          · rw [if_neg hlog]; exact h0
        have h2 : (if s.host_error = true then
              PropagateJSError (if db.has_logger = true then
                ((if s.prepare_host_error = true then PropagateJSError db else db).Log
                  s.logger_throws).2
                else (if s.prepare_host_error = true then PropagateJSError db else db))
            else (if db.has_logger = true then
                ((if s.prepare_host_error = true then PropagateJSError db else db).Log
                  s.logger_throws).2
                else (if s.prepare_host_error = true then PropagateJSError db else db))).busy =
            db.busy := by
          by_cases he : s.host_error = true
          · rw [if_pos he]; unfold PropagateJSError; exact h1
          · rw [if_neg he]; exact h1
        by_cases hf : s.finalize_status ≠ SQLITE_OK
        · rw [if_pos hf]; exact h2
        · rw [if_neg hf, ih]; exact h2

theorem ThrowDatabaseError_busy (db : Database) : db.ThrowDatabaseError.1.busy = db.busy := by
  unfold Database.ThrowDatabaseError
  by_cases h : db.was_js_error = true <;> simp [h]

theorem REQUIRE_DATABASE_OPEN_eq (db : Database) :
    REQUIRE_DATABASE_OPEN db =
      if db.is_open = true then none else some Exception.ResourceStateError := rfl

/-- A call of `JS_exec` that passes the precondition checks. -/
theorem JS_exec_admitted (db : Database) (script : List ExecStatement)
    (ho : db.is_open = true) (hb : db.busy = false)
    (hi : REQUIRE_DATABASE_NO_ITERATORS_UNLESS_UNSAFE db = none) :
    db.JS_exec script =
      if (execLoop script { db with busy := true }).1 ≠ SQLITE_OK then
        (({ (execLoop script { db with busy := true }).2 with busy := false } :
            Database).ThrowDatabaseError.2,
         ({ (execLoop script { db with busy := true }).2 with busy := false } :
            Database).ThrowDatabaseError.1)
      else ([], { (execLoop script { db with busy := true }).2 with busy := false }) := by
  have h1 : REQUIRE_DATABASE_OPEN db = none := by
    unfold REQUIRE_DATABASE_OPEN; simp [ho]
  have h2 : REQUIRE_DATABASE_NOT_BUSY db = none := by
    unfold REQUIRE_DATABASE_NOT_BUSY; simp [hb]
  unfold Database.JS_exec
  simp only [h1, h2, hi]

/-- A host error raised inside `sqlite3_prepare_v2` that leaves no handle: `JS_exec`
throws nothing of its own (the host exception is the one in flight), and clears both
`busy` and `was_js_error`. -/
theorem JS_exec_prepare_host_error (db : Database) (s : ExecStatement)
    (rest : List ExecStatement)
    (ho : db.is_open = true) (hb : db.busy = false)
    (hi : REQUIRE_DATABASE_NO_ITERATORS_UNLESS_UNSAFE db = none)
    (hh : s.handle = false) (he : s.prepare_host_error = true)
    (hs : s.prepare_status ≠ SQLITE_OK) :
    db.JS_exec (s :: rest) = ([], { db with busy := false, was_js_error := false }) := by
  rw [JS_exec_admitted db _ ho hb hi]
  unfold execLoop
  simp only [hh, he, if_true]
  rw [if_pos hs]
  unfold Database.ThrowDatabaseError PropagateJSError
  simp

/-- A failure of `sqlite3_prepare_v2` with no host error behind it: `JS_exec` throws
the engine error of the connection. -/
theorem JS_exec_prepare_engine_error (db : Database) (s : ExecStatement)
    (rest : List ExecStatement)
    (ho : db.is_open = true) (hb : db.busy = false) (hw : db.was_js_error = false)
    (hi : REQUIRE_DATABASE_NO_ITERATORS_UNLESS_UNSAFE db = none)
    (hh : s.handle = false) (he : s.prepare_host_error = false)
    (hs : s.prepare_status ≠ SQLITE_OK) :
    db.JS_exec (s :: rest) =
      ([Database.ThrowSqliteError db.db_handle], { db with busy := false }) := by
  rw [JS_exec_admitted db _ ho hb hi]
  unfold execLoop
  simp only [hh, he, if_true]
  rw [if_pos hs]
  unfold Database.ThrowDatabaseError
  simp [hw]

/-- A call of `JS_exec` that a precondition check refuses. -/
theorem JS_exec_refused (db : Database) (script : List ExecStatement)
    (h : REQUIRE_DATABASE_OPEN db ≠ none ∨ REQUIRE_DATABASE_NOT_BUSY db ≠ none ∨
      REQUIRE_DATABASE_NO_ITERATORS_UNLESS_UNSAFE db ≠ none) :
    db.JS_exec script = ([Exception.ResourceStateError], db) := by
  have e1 : ∀ e, REQUIRE_DATABASE_OPEN db = some e → e = Exception.ResourceStateError := by
    intro e he
    unfold REQUIRE_DATABASE_OPEN at he
    split at he
    · exact Option.noConfusion he
    · injection he with he; exact he.symm
  have e2 : ∀ e, REQUIRE_DATABASE_NOT_BUSY db = some e → e = Exception.ResourceStateError := by
    intro e he
    unfold REQUIRE_DATABASE_NOT_BUSY at he
    split at he
    · injection he with he; exact he.symm
    · exact Option.noConfusion he
  have e3 : ∀ e, REQUIRE_DATABASE_NO_ITERATORS_UNLESS_UNSAFE db = some e →
      e = Exception.ResourceStateError := by
    intro e he
    unfold REQUIRE_DATABASE_NO_ITERATORS_UNLESS_UNSAFE REQUIRE_DATABASE_NO_ITERATORS at he
    split at he
    · exact Option.noConfusion he
    · split at he
      · injection he with he; exact he.symm
      · exact Option.noConfusion he
  unfold Database.JS_exec
  cases h1 : REQUIRE_DATABASE_OPEN db with
  | some e => simp only [e1 e h1]
  | none =>
    cases h2 : REQUIRE_DATABASE_NOT_BUSY db with
    | some e => simp only [e2 e h2]
    | none =>
      cases h3 : REQUIRE_DATABASE_NO_ITERATORS_UNLESS_UNSAFE db with
      | some e => simp only [e3 e h3]
      | none =>
        rcases h with h | h | h
        · exact absurd h1 h
        · exact absurd h2 h
        · exact absurd h3 h

/-- A call of `JS_table` that passes the precondition checks. -/
theorem JS_table_admitted (db : Database) (status : Int)
    (ho : db.is_open = true) (hb : db.busy = false) (hi : db.iterators = 0) :
    db.JS_table status =
      ((if status ≠ SQLITE_OK then ({ db with busy := true } : Database).ThrowDatabaseError
          else ({ db with busy := true }, [])).2,
       { (if status ≠ SQLITE_OK then ({ db with busy := true } : Database).ThrowDatabaseError
          else ({ db with busy := true }, [])).1 with busy := false }) := by
  have h1 : REQUIRE_DATABASE_OPEN db = none := by
    unfold REQUIRE_DATABASE_OPEN; simp [ho]
  have h2 : REQUIRE_DATABASE_NOT_BUSY db = none := by
    unfold REQUIRE_DATABASE_NOT_BUSY; simp [hb]
  have h3 : REQUIRE_DATABASE_NO_ITERATORS db = none := by
    unfold REQUIRE_DATABASE_NO_ITERATORS; simp [hi]
  unfold Database.JS_table
  simp only [h1, h2, h3]

/-- A call of `JS_table` that a precondition check refuses. -/
theorem JS_table_refused (db : Database) (status : Int)
    (h : db.is_open = false ∨ db.busy = true ∨ db.iterators ≠ 0) :
    db.JS_table status = ([Exception.ResourceStateError], db) := by
  unfold Database.JS_table
  by_cases ho : db.is_open = true
  · have h1 : REQUIRE_DATABASE_OPEN db = none := by
      unfold REQUIRE_DATABASE_OPEN; simp [ho]
    by_cases hb : db.busy = true
    · have h2 : REQUIRE_DATABASE_NOT_BUSY db = some Exception.ResourceStateError := by
        unfold REQUIRE_DATABASE_NOT_BUSY; simp [hb]
      simp only [h1, h2]
    · have h2 : REQUIRE_DATABASE_NOT_BUSY db = none := by
        unfold REQUIRE_DATABASE_NOT_BUSY; simp [hb]
      have hi : db.iterators ≠ 0 := by
        rcases h with h | h | h
        · rw [h] at ho; exact absurd ho (by simp)
        · exact absurd h hb
        · exact h
      have h3 : REQUIRE_DATABASE_NO_ITERATORS db = some Exception.ResourceStateError := by
        unfold REQUIRE_DATABASE_NO_ITERATORS; simp [hi]
      simp only [h1, h2, h3]
  · have h1 : REQUIRE_DATABASE_OPEN db = some Exception.ResourceStateError := by
      unfold REQUIRE_DATABASE_OPEN; simp [ho]
    simp only [h1]

/-! ## The step of `xNext` -/

/-- The three outcomes of `xNext` on a cursor that holds an iterator. -/
theorem xNext_cases {JS : Type} (cursor : Cursor JS) (db : Database)
    (iterator : HostIterator JS) (hit : cursor.iterator = some iterator) :
    (iterator.results iterator.calls = NextResult.threw →
      xNext cursor db = some
        { status := SQLITE_ERROR
          cursor := { cursor with
            iterator := some { iterator with calls := iterator.calls + 1 } }
          db := PropagateJSError db }) ∧
    (∀ done value, iterator.results iterator.calls = NextResult.record done value →
      xNext cursor db = some
        { status := SQLITE_OK
          cursor :=
            { iterator := some { iterator with calls := iterator.calls + 1 }
              row := if done then cursor.row else some value
              done := done
              rowid := cursor.rowid + 1 }
          db := db }) := by
  constructor
  · intro h
    unfold xNext
    simp only [hit, h]
  · intro done value h
    unfold xNext
    simp only [hit, h]

/-! ## Planning: the second loop of `xBestIndex`, whatever the shifts yield -/

theorem forwardLoop_cons (ub : Nat → Nat) (st : PlanState) (x : Nat × Nat)
    (L : List (Nat × Nat)) :
    forwardLoop ub st (x :: L) = forwardLoop ub (forwardStep ub st x) L := rfl

theorem forwardLoop_append (ub : Nat → Nat) (st : PlanState) (A B : List (Nat × Nat)) :
    forwardLoop ub st (A ++ B) = forwardLoop ub (forwardLoop ub st A) B := by
  unfold forwardLoop
  rw [List.foldl_append]

theorem forwardStep_columns (ub : Nat → Nat) (st : PlanState) (x : Nat × Nat) :
    ((forwardStep ub st x).idxNum, (forwardStep ub st x).argument_count) =
      columnStep ub (st.idxNum, st.argument_count) x.1 := by
  unfold forwardStep columnStep
  by_cases h : st.idxNum &&& shl1 ub x.1 = 0
  · simp only [h, if_true]
  · simp only [h, if_false]

/-- The mask and the argument count the second loop ends with depend on the columns of
the pairs only. -/
theorem forwardLoop_columns (ub : Nat → Nat) :
    ∀ (L : List (Nat × Nat)) (st : PlanState),
      ((forwardLoop ub st L).idxNum, (forwardLoop ub st L).argument_count) =
        columnLoop ub (st.idxNum, st.argument_count) (L.map Prod.fst) := by
  intro L
  induction L with
  | nil => intro st; rfl
  | cons x L ih =>
    intro st
    rw [forwardLoop_cons, ih, forwardStep_columns]
    rfl

theorem forwardStep_length (ub : Nat → Nat) (st : PlanState) (x : Nat × Nat) :
    (forwardStep ub st x).aConstraintUsage.length = st.aConstraintUsage.length := by
  unfold forwardStep
  by_cases h : st.idxNum &&& shl1 ub x.1 = 0
  · simp only [h, if_true, List.length_set]
  · simp only [h, if_false]

theorem forwardLoop_length (ub : Nat → Nat) :
    ∀ (L : List (Nat × Nat)) (st : PlanState),
      (forwardLoop ub st L).aConstraintUsage.length = st.aConstraintUsage.length := by
  intro L
  induction L with
  | nil => intro st; rfl
  | cons x L ih =>
    intro st
    rw [forwardLoop_cons, ih, forwardStep_length]

theorem forwardStep_untouched (ub : Nat → Nat) (st : PlanState) (x : Nat × Nat) (j : Nat)
    (hj : x.2 ≠ j) :
    (forwardStep ub st x).aConstraintUsage[j]? = st.aConstraintUsage[j]? := by
  unfold forwardStep
  by_cases h : st.idxNum &&& shl1 ub x.1 = 0
  · simp only [h, if_true]
    exact List.getElem?_set_ne hj
  · simp only [h, if_false]

/-- The second loop writes only the usage entries of the pairs it is given. -/
theorem forwardLoop_untouched (ub : Nat → Nat) :
    ∀ (L : List (Nat × Nat)) (st : PlanState) (j : Nat), j ∉ L.map Prod.snd →
      (forwardLoop ub st L).aConstraintUsage[j]? = st.aConstraintUsage[j]? := by
  intro L
  induction L with
  | nil => intro st j _; rfl
  | cons x L ih =>
    intro st j hj
    rw [List.map_cons, List.mem_cons, not_or] at hj
    rw [forwardLoop_cons, ih _ j hj.2, forwardStep_untouched ub st x j (fun h => hj.1 h.symm)]

theorem getElem?_set_self_map {α : Type} (u : List α) (j : Nat) (v : α) :
    (u.set j v)[j]? = (u[j]?).map (fun _ => v) := by
  by_cases h : j < u.length
  · rw [List.getElem?_set_self h, List.getElem?_eq_getElem h]
    rfl
  · have h1 : (u.set j v).length ≤ j := by rw [List.length_set]; omega
    rw [List.getElem?_eq_none h1, List.getElem?_eq_none (by omega)]
    rfl

/-- The usage entry of a pair whose constraint number occurs once in the vector: it is
written when the bit of the column is clear in the mask reached before the pair, with
the next argument position; otherwise it is left as it was. -/
theorem forwardLoop_at (ub : Nat → Nat) (A B : List (Nat × Nat)) (p j : Nat)
    (st : PlanState) (hA : j ∉ A.map Prod.snd) (hB : j ∉ B.map Prod.snd) :
    (forwardLoop ub st (A ++ (p, j) :: B)).aConstraintUsage[j]? =
      if (columnLoop ub (st.idxNum, st.argument_count) (A.map Prod.fst)).1 &&& shl1 ub p = 0 then
        (st.aConstraintUsage[j]?).map (fun _ =>
          { argvIndex :=
              (columnLoop ub (st.idxNum, st.argument_count) (A.map Prod.fst)).2 + 1
            omit_ := 1 })
      else st.aConstraintUsage[j]? := by
  rw [forwardLoop_append, forwardLoop_cons, forwardLoop_untouched ub B _ j hB]
  have hcols := forwardLoop_columns ub A st
  have h1 : (forwardLoop ub st A).idxNum =
      (columnLoop ub (st.idxNum, st.argument_count) (A.map Prod.fst)).1 :=
    congrArg Prod.fst hcols
  have h2 : (forwardLoop ub st A).argument_count =
      (columnLoop ub (st.idxNum, st.argument_count) (A.map Prod.fst)).2 :=
    congrArg Prod.snd hcols
  have h3 := forwardLoop_untouched ub A st j hA
  unfold forwardStep
  simp only [h1, h2]
  by_cases h : (columnLoop ub (st.idxNum, st.argument_count) (A.map Prod.fst)).1 &&&
      shl1 ub p = 0
  · simp only [h, if_true]
    rw [getElem?_set_self_map, h3]
  · simp only [h, if_false]
    exact h3

theorem countP_set_of_not {α : Type} (P : α → Bool) :
    ∀ (u : List α) (j : Nat) (v e : α), u[j]? = some e → P e = false → P v = true →
      (u.set j v).countP P = u.countP P + 1 := by
  intro u
  induction u with
  | nil => intro j v e h; simp at h
  | cons a u ih =>
    intro j v e h he hv
    cases j with
    | zero =>
      simp only [List.getElem?_cons_zero, Option.some.injEq] at h
      subst h
      simp [List.set, List.countP_cons, he, hv]
    | succ j =>
      simp only [List.getElem?_cons_succ] at h
      simp only [List.set, List.countP_cons]
      rw [ih j v e h he hv]
      omega

/-- When every pair points at a usage entry without argument position and no constraint
number repeats, the number of entries with a position grows by the number of
positions the loop hands out. -/
theorem forwardLoop_assignedPositions (ub : Nat → Nat) :
    ∀ (L : List (Nat × Nat)) (st : PlanState), (L.map Prod.snd).Nodup →
      (∀ x ∈ L, ∃ e, st.aConstraintUsage[x.2]? = some e ∧ e.argvIndex = 0) →
      assignedPositions (forwardLoop ub st L).aConstraintUsage + st.argument_count =
        assignedPositions st.aConstraintUsage + (forwardLoop ub st L).argument_count := by
  intro L
  induction L with
  | nil => intro st _ _; rfl
  | cons x L ih =>
    intro st hnd hzero
    rw [List.map_cons, List.nodup_cons] at hnd
    obtain ⟨hx, hndL⟩ := hnd
    obtain ⟨e, he, he0⟩ := hzero x (List.mem_cons_self _ _)
    have hrest : ∀ y ∈ L, ∃ e, (forwardStep ub st x).aConstraintUsage[y.2]? = some e ∧
        e.argvIndex = 0 := by
      intro y hy
      have hne : x.2 ≠ y.2 := by
        intro h
        exact hx (h ▸ List.mem_map.mpr ⟨y, hy, rfl⟩)
      rw [forwardStep_untouched ub st x y.2 hne]
      exact hzero y (List.mem_cons_of_mem _ hy)
    rw [forwardLoop_cons]
    have ih' := ih (forwardStep ub st x) hndL hrest
    have hstep : assignedPositions (forwardStep ub st x).aConstraintUsage + st.argument_count =
        assignedPositions st.aConstraintUsage + (forwardStep ub st x).argument_count := by
      unfold forwardStep
      by_cases h : st.idxNum &&& shl1 ub x.1 = 0
      · simp only [h, if_true]
        unfold assignedPositions
        rw [countP_set_of_not _ _ _ _ e he (by simp [he0]) (by simp)]
        omega
      · simp only [h, if_false]
    omega

/-! ## Planning: what the outcome of `xBestIndex` depends on -/

/-- The first loop passes over a constraint that is not relevant. -/
theorem collect_skip (names : List String) (item : sqlite3_index_constraint)
    (rest : List sqlite3_index_constraint) (i : Nat) (forwarded : List (Nat × Nat))
    (h : ¬ relevant names.length item) :
    collect names (item :: rest) i forwarded = collect names rest (i + 1) forwarded := by
  rw [collect]
  by_cases hlim : item.op = SQLITE_INDEX_CONSTRAINT_LIMIT ∨
      item.op = SQLITE_INDEX_CONSTRAINT_OFFSET
  · rw [if_pos hlim]
  · rw [if_neg hlim]
    have hcol : ¬ (0 ≤ item.iColumn ∧ item.iColumn < (names.length : Int)) := by
      intro hcol
      exact h ⟨fun h1 => hlim (Or.inl h1), fun h2 => hlim (Or.inr h2), hcol⟩
    rw [if_neg hcol]

/-- The first loop pushes a relevant constraint that is a usable equality. -/
theorem collect_push (names : List String) (item : sqlite3_index_constraint)
    (rest : List sqlite3_index_constraint) (i : Nat) (forwarded : List (Nat × Nat))
    (h : relevant names.length item) (hno : ¬ offending names.length item) :
    collect names (item :: rest) i forwarded =
      collect names rest (i + 1) (forwarded ++ [(item.iColumn.toNat, i)]) := by
  rw [collect]
  have hlim : ¬ (item.op = SQLITE_INDEX_CONSTRAINT_LIMIT ∨
      item.op = SQLITE_INDEX_CONSTRAINT_OFFSET) := by
    rintro (h1 | h1)
    · exact h.1 h1
    · exact h.2.1 h1
  have hcol : 0 ≤ item.iColumn ∧ item.iColumn < (names.length : Int) := h.2.2
  have heq : item.op = SQLITE_INDEX_CONSTRAINT_EQ := by
    by_contra h1
    exact hno ⟨h, Or.inl h1⟩
  have hus : ¬ item.usable = false := fun h1 => hno ⟨h, Or.inr h1⟩
  rw [if_neg hlim, if_pos hcol, if_neg (not_not.mpr heq), if_neg hus]

/-- The columns of the pairs the first loop pushes are those of the relevant
constraints, in list order. -/
theorem collect_columns (names : List String) :
    ∀ (cs : List sqlite3_index_constraint) (i : Nat) (forwarded : List (Nat × Nat)),
      (∀ c ∈ cs, ¬ offending names.length c) →
      ∃ pairs, collect names cs i forwarded = Collected.forwarded (forwarded ++ pairs) ∧
        pairs.map Prod.fst =
          (cs.filter (fun c => decide (relevant names.length c))).map
            (fun c => c.iColumn.toNat) := by
  intro cs
  induction cs with
  | nil =>
    intro i forwarded _
    exact ⟨[], by simp [collect], rfl⟩
  | cons item rest ih =>
    intro i forwarded hno
    have hitem := hno item (List.mem_cons_self _ _)
    have hrest : ∀ c ∈ rest, ¬ offending names.length c :=
      fun c hc => hno c (List.mem_cons_of_mem _ hc)
    by_cases hrel : relevant names.length item
    · rw [collect_push names item rest i forwarded hrel hitem]
      obtain ⟨pairs, h1, h2⟩ := ih (i + 1) (forwarded ++ [(item.iColumn.toNat, i)]) hrest
      refine ⟨(item.iColumn.toNat, i) :: pairs, by simpa using h1, ?_⟩
      rw [List.filter_cons_of_pos (by simpa using hrel), List.map_cons, List.map_cons, h2]
    · rw [collect_skip names item rest i forwarded hrel]
      obtain ⟨pairs, h1, h2⟩ := ih (i + 1) forwarded hrest
      refine ⟨pairs, h1, ?_⟩
      rw [List.filter_cons_of_neg (by simpa using hrel), h2]

/-- The first loop does not see the difference between two lists that differ only in
constraints that are not relevant. -/
theorem collect_sameRelevant (names : List String) (cs ds : List sqlite3_index_constraint)
    (h : sameRelevant names.length cs ds) :
    ∀ (i : Nat) (forwarded : List (Nat × Nat)),
      collect names cs i forwarded = collect names ds i forwarded := by
  unfold sameRelevant at h
  induction h with
  | nil => intro i forwarded; rfl
  | @cons c d cs ds hcd _ ih =>
    intro i forwarded
    rcases hcd with heq | ⟨hc, hd⟩
    · subst heq
      rw [collect, collect]
      simp only [ih]
    · rw [collect_skip names c cs i forwarded hc, collect_skip names d ds i forwarded hd]
      exact ih (i + 1) forwarded

/-- The shape of a successful plan: the sorted vector of the pairs of the relevant
constraints, run through the second loop. -/
theorem xBestIndex_ok_form {JS : Type} (ub : Nat → Nat) (vtab : VTab JS)
    (info : sqlite3_index_info)
    (hno : ∀ c ∈ info.aConstraint, ¬ offending vtab.parameter_count c) :
    ∃ pairs,
      (∀ p j, (p, j) ∈ sortForwarded pairs ↔
        p < vtab.parameter_count ∧
          ∃ c, info.aConstraint[j]? = some c ∧ usableEqualityOn p c) ∧
      (∀ j, j ∈ (sortForwarded pairs).map Prod.snd →
        ∃ c, info.aConstraint[j]? = some c ∧ relevant vtab.parameter_count c) ∧
      ((sortForwarded pairs).map Prod.snd).Nodup ∧
      ((sortForwarded pairs).map Prod.fst).Perm
        ((info.aConstraint.filter (fun c => decide (relevant vtab.parameter_count c))).map
          (fun c => c.iColumn.toNat)) ∧
      xBestIndex ub vtab info =
        { status := SQLITE_OK
          vtab := vtab
          output :=
            { info with
              idxNum := (forwardLoop ub
                { idxNum := info.idxNum, aConstraintUsage := info.aConstraintUsage,
                  argument_count := 0 } (sortForwarded pairs)).idxNum
              aConstraintUsage := (forwardLoop ub
                { idxNum := info.idxNum, aConstraintUsage := info.aConstraintUsage,
                  argument_count := 0 } (sortForwarded pairs)).aConstraintUsage
              estimatedCost := ((1000000000 / ((forwardLoop ub
                { idxNum := info.idxNum, aConstraintUsage := info.aConstraintUsage,
                  argument_count := 0 } (sortForwarded pairs)).argument_count + 1) : Nat) : Int)
              estimatedRows := ((1000000000 / ((forwardLoop ub
                { idxNum := info.idxNum, aConstraintUsage := info.aConstraintUsage,
                  argument_count := 0 } (sortForwarded pairs)).argument_count + 1) : Nat) :
                  Int) } } := by
  obtain ⟨pairs, hcollect, hmem, hnd⟩ :=
    collect_of_no_offending vtab.parameter_names info.aConstraint 0 [] hno
  obtain ⟨pairs', hcollect', hfst⟩ :=
    collect_columns vtab.parameter_names info.aConstraint 0 [] hno
  simp only [List.nil_append, Nat.sub_zero, Nat.zero_le, true_and] at hcollect hmem hcollect'
  have hsame : pairs' = pairs := by
    rw [hcollect] at hcollect'
    injection hcollect' with h
    exact h.symm
  subst hsame
  refine ⟨pairs', ?_, ?_, ?_, ?_, ?_⟩
  · intro p j
    rw [(sortForwarded_perm pairs').mem_iff, hmem p j]
    constructor
    · rintro ⟨c, hc, hrel, hcol⟩
      have hcmem : c ∈ info.aConstraint := List.mem_iff_getElem?.mpr ⟨j, hc⟩
      have := (relevant_iff_usableEqualityOn vtab.parameter_count c p (hno c hcmem)).mp
        ⟨hrel, hcol⟩
      exact ⟨this.1, c, hc, this.2⟩
    · rintro ⟨hp, c, hc, hu⟩
      have hcmem : c ∈ info.aConstraint := List.mem_iff_getElem?.mpr ⟨j, hc⟩
      have := (relevant_iff_usableEqualityOn vtab.parameter_count c p (hno c hcmem)).mpr
        ⟨hp, hu⟩
      exact ⟨c, hc, this.1, this.2⟩
  · intro j hj
    obtain ⟨⟨p, k⟩, hpk, hk⟩ := List.mem_map.mp hj
    simp only at hk
    subst hk
    obtain ⟨c, hc, hrel, _⟩ := (hmem p k).mp ((sortForwarded_perm pairs').mem_iff.mp hpk)
    exact ⟨c, hc, hrel⟩
  · exact (((sortForwarded_perm pairs').map Prod.snd).nodup_iff).mpr hnd
  · have hfst' : pairs'.map Prod.fst =
        (info.aConstraint.filter (fun c => decide (relevant vtab.parameter_count c))).map
          (fun c => c.iColumn.toNat) := hfst
    rw [← hfst']
    exact (sortForwarded_perm pairs').map Prod.fst
  · unfold xBestIndex
    rw [hcollect]

/-- A plan succeeds exactly when the list has no offending constraint. -/
theorem xBestIndex_ok_iff {JS : Type} (ub : Nat → Nat) (vtab : VTab JS)
    (info : sqlite3_index_info) :
    (xBestIndex ub vtab info).status = SQLITE_OK ↔
      ∀ c ∈ info.aConstraint, ¬ offending vtab.parameter_count c := by
  constructor
  · exact no_offending_of_ok ub vtab info
  · intro hno
    obtain ⟨pairs, _, _, _, _, hx⟩ := xBestIndex_ok_form ub vtab info hno
    rw [hx]

/-! ## Planning: the estimate -/

theorem countBelow_le (P : Nat → Bool) (n : Nat) : countBelow P n ≤ n := by
  induction n with
  | zero => exact Nat.le_refl 0
  | succ n ih =>
    rw [countBelow_succ]
    by_cases h : P n = true
    · rw [if_pos h]; omega
    · rw [if_neg h]; omega

theorem countBelow_restrict (Q : Nat → Bool) (m : Nat) :
    ∀ d, countBelow (fun b => decide (b < m) && Q b) (m + d) = countBelow Q m := by
  intro d
  induction d with
  | zero =>
    apply countBelow_congr
    intro j hj
    have hj' : j < m := hj
    simp [hj']
  | succ d ih =>
    rw [← Nat.add_assoc, countBelow_succ, ih]
    have : ¬ (m + d < m) := by omega
    simp [this]

theorem assignedPositions_zeroedUsage (n : Nat) : assignedPositions (zeroedUsage n) = 0 := by
  unfold assignedPositions zeroedUsage
  rw [List.countP_eq_zero]
  intro e he
  rw [List.eq_of_mem_replicate he]
  simp

/-- The estimate of a successful plan over a zeroed usage array, by the number of usage
entries that end with an argument position; that number is at most 32 for a table of
at most 32 parameters, and is the number of bound parameters when `idxNum` starts
at 0. -/
theorem xBestIndex_estimate {JS : Type} (ub : Nat → Nat) (vtab : VTab JS)
    (info : sqlite3_index_info)
    (hno : ∀ c ∈ info.aConstraint, ¬ offending vtab.parameter_count c)
    (hu : info.aConstraintUsage = zeroedUsage info.aConstraint.length) :
    (xBestIndex ub vtab info).output.estimatedCost =
      ((1000000000 /
        (assignedPositions (xBestIndex ub vtab info).output.aConstraintUsage + 1) : Nat) : Int) ∧
    (xBestIndex ub vtab info).output.estimatedRows =
      ((1000000000 /
        (assignedPositions (xBestIndex ub vtab info).output.aConstraintUsage + 1) : Nat) : Int) ∧
    (vtab.parameter_count ≤ 32 →
      assignedPositions (xBestIndex ub vtab info).output.aConstraintUsage ≤ 32) ∧
    (vtab.parameter_count ≤ 32 → info.idxNum = 0 →
      assignedPositions (xBestIndex ub vtab info).output.aConstraintUsage =
        (boundParameters vtab.parameter_count info.aConstraint).length) := by
  obtain ⟨pairs, hS, hsnd, hnd, _, hx⟩ := xBestIndex_ok_form ub vtab info hno
  have hzero : ∀ x ∈ sortForwarded pairs,
      ∃ e, info.aConstraintUsage[x.2]? = some e ∧ e.argvIndex = 0 := by
    intro x hx'
    obtain ⟨c, hc, _⟩ := hsnd x.2 (List.mem_map.mpr ⟨x, hx', rfl⟩)
    have hlt : x.2 < info.aConstraint.length := (List.getElem?_eq_some.mp hc).1
    refine ⟨{ argvIndex := 0, omit_ := 0 }, ?_, rfl⟩
    rw [hu]
    unfold zeroedUsage
    rw [List.getElem?_replicate]
    simp [hlt]
  have hcount := forwardLoop_assignedPositions ub (sortForwarded pairs)
    { idxNum := info.idxNum, aConstraintUsage := info.aConstraintUsage, argument_count := 0 }
    hnd hzero
  have hz : assignedPositions info.aConstraintUsage = 0 := by
    rw [hu]; exact assignedPositions_zeroedUsage _
  simp only [hz, Nat.add_zero, Nat.zero_add] at hcount
  have hlt32 : vtab.parameter_count ≤ 32 → ∀ x ∈ sortForwarded pairs, x.1 < 32 := by
    rintro hpc ⟨p, j⟩ hx'
    have := ((hS p j).mp hx').1
    simp only
    omega
  rw [hx]
  simp only
  rw [hcount]
  refine ⟨rfl, rfl, ?_, ?_⟩
  · intro hpc
    obtain ⟨_, l2, _⟩ := forwardLoop_spec ub (sortForwarded pairs) (sortForwarded_sorted pairs)
      (hlt32 hpc) hnd info.idxNum info.aConstraintUsage 0
    rw [l2, Nat.zero_add]
    exact countBelow_le _ _
  · intro hpc hidx
    obtain ⟨_, l2, _⟩ := forwardLoop_spec ub (sortForwarded pairs) (sortForwarded_sorted pairs)
      (hlt32 hpc) hnd info.idxNum info.aConstraintUsage 0
    rw [l2, Nat.zero_add]
    have hP : (fun b => !info.idxNum.testBit b &&
          decide (b ∈ (sortForwarded pairs).map Prod.fst)) =
        (fun b => decide (b < vtab.parameter_count) && decide (bound info.aConstraint b)) := by
      funext b
      rw [hidx, Nat.zero_testBit]
      simp only [Bool.not_false, Bool.true_and]
      rw [← Bool.decide_and]
      apply decide_eq_decide.mpr
      constructor
      · intro h
        obtain ⟨⟨p, j⟩, hpj, hp⟩ := List.mem_map.mp h
        simp only at hp
        subst hp
        obtain ⟨hp, c, hc, hu'⟩ := (hS p j).mp hpj
        exact ⟨hp, c, List.mem_iff_getElem?.mpr ⟨j, hc⟩, hu'⟩
      · rintro ⟨hb, c, hc, hu'⟩
        obtain ⟨j, hj⟩ := List.mem_iff_getElem?.mp hc
        exact List.mem_map.mpr ⟨(b, j), (hS b j).mpr ⟨hb, c, hj, hu'⟩, rfl⟩
    rw [hP]
    have h32 : 32 = vtab.parameter_count + (32 - vtab.parameter_count) := by omega
    rw [h32, countBelow_restrict]
    rfl

/-! ## Planning: the order of the constraints -/

/-- The columns of the sorted vector are in ascending order. -/
theorem sortForwarded_columns_sorted (pairs : List (Nat × Nat)) :
    ((sortForwarded pairs).map Prod.fst).Sorted (fun a b => a ≤ b) :=
  List.Pairwise.map Prod.fst (fun _ _ h => pairLE_fst_le h) (sortForwarded_sorted pairs)

/-- In a sorted vector without repeated constraint number, the pairs before the
lowest-numbered pair of column `p` are those of the columns below `p`, and the
constraint number of that pair occurs nowhere else. -/
theorem sorted_prefix_columns (A B : List (Nat × Nat)) (p j : Nat)
    (hsorted : (A ++ (p, j) :: B).Sorted pairLE)
    (hnd : ((A ++ (p, j) :: B).map Prod.snd).Nodup)
    (hmin : ∀ k, (p, k) ∈ A ++ (p, j) :: B → j ≤ k) :
    A.map Prod.fst = ((A ++ (p, j) :: B).map Prod.fst).filter (fun q => decide (q < p)) ∧
    j ∉ A.map Prod.snd ∧ j ∉ B.map Prod.snd := by
  have hnd' : (j :: (A.map Prod.snd ++ B.map Prod.snd)).Nodup := by
    rw [List.map_append, List.map_cons] at hnd
    exact List.nodup_middle.mp hnd
  rw [List.nodup_cons, List.mem_append, not_or] at hnd'
  obtain ⟨⟨hjA, hjB⟩, _⟩ := hnd'
  obtain ⟨_, hB, hAB⟩ := List.pairwise_append.mp hsorted
  rw [List.pairwise_cons] at hB
  have hA : ∀ x ∈ A, x.1 < p := by
    intro x hx
    rcases hAB x hx (p, j) (List.mem_cons_self _ _) with h | ⟨h1, h2⟩
    · exact h
    · exfalso
      have hx' : (p, x.2) ∈ A ++ (p, j) :: B := by
        have : x = (p, x.2) := Prod.ext h1 rfl
        rw [← this]
        exact List.mem_append_left _ hx
      have h3 := hmin x.2 hx'
      have hxj : x.2 = j := by
        have h2' : x.2 ≤ j := h2
        omega
      exact hjA (hxj ▸ List.mem_map.mpr ⟨x, hx, rfl⟩)
  have hB' : ∀ x ∈ (p, j) :: B, ¬ x.1 < p := by
    intro x hx
    rcases List.mem_cons.mp hx with h | h
    · rw [h]; exact lt_irrefl p
    · have := pairLE_fst_le (hB.1 x h)
      have h' : p ≤ x.1 := this
      omega
  refine ⟨?_, hjA, hjB⟩
  rw [List.map_append, List.filter_append]
  have h1 : (A.map Prod.fst).filter (fun q => decide (q < p)) = A.map Prod.fst := by
    rw [List.filter_eq_self]
    intro a ha
    obtain ⟨x, hx, rfl⟩ := List.mem_map.mp ha
    exact decide_eq_true (hA x hx)
  have h2 : (((p, j) :: B).map Prod.fst).filter (fun q => decide (q < p)) = [] := by
    rw [List.filter_eq_nil_iff]
    intro a ha
    obtain ⟨x, hx, rfl⟩ := List.mem_map.mp ha
    simpa using hB' x hx
  rw [h1, h2, List.append_nil]

theorem bound_of_perm {cs ds : List sqlite3_index_constraint} (h : cs.Perm ds) (p : Nat) :
    bound cs p ↔ bound ds p := by
  unfold bound
  constructor
  · rintro ⟨c, hc, hu⟩
    exact ⟨c, h.mem_iff.mp hc, hu⟩
  · rintro ⟨c, hc, hu⟩
    exact ⟨c, h.mem_iff.mpr hc, hu⟩

/-- The usage entry a successful plan over a zeroed usage array leaves at the chosen
constraint of a bound parameter, by the columns of the sorted vector alone. -/
theorem xBestIndex_chosen_entry {JS : Type} (ub : Nat → Nat) (vtab : VTab JS)
    (info : sqlite3_index_info)
    (hno : ∀ c ∈ info.aConstraint, ¬ offending vtab.parameter_count c)
    (hu : info.aConstraintUsage = zeroedUsage info.aConstraint.length) :
    ∃ cols : List Nat,
      cols.Sorted (fun a b => a ≤ b) ∧
      cols.Perm
        ((info.aConstraint.filter (fun c => decide (relevant vtab.parameter_count c))).map
          (fun c => c.iColumn.toNat)) ∧
      ((xBestIndex ub vtab info).output.idxNum,
        assignedPositions (xBestIndex ub vtab info).output.aConstraintUsage) =
        columnLoop ub (info.idxNum, 0) cols ∧
      ∀ p, p < vtab.parameter_count → bound info.aConstraint p →
        (xBestIndex ub vtab info).output.aConstraintUsage[chosenConstraint info.aConstraint p]? =
          some (if (columnLoop ub (info.idxNum, 0)
                (cols.filter (fun q => decide (q < p)))).1 &&& shl1 ub p = 0 then
              { argvIndex := (columnLoop ub (info.idxNum, 0)
                  (cols.filter (fun q => decide (q < p)))).2 + 1
                omit_ := 1 }
            else { argvIndex := 0, omit_ := 0 }) := by
  obtain ⟨pairs, hS, hsnd, hnd, hperm, hx⟩ := xBestIndex_ok_form ub vtab info hno
  have hzero : ∀ x ∈ sortForwarded pairs,
      ∃ e, info.aConstraintUsage[x.2]? = some e ∧ e.argvIndex = 0 := by
    intro x hx'
    obtain ⟨c, hc, _⟩ := hsnd x.2 (List.mem_map.mpr ⟨x, hx', rfl⟩)
    have hlt : x.2 < info.aConstraint.length := (List.getElem?_eq_some.mp hc).1
    refine ⟨{ argvIndex := 0, omit_ := 0 }, ?_, rfl⟩
    rw [hu]
    unfold zeroedUsage
    rw [List.getElem?_replicate]
    simp [hlt]
  have hcount := forwardLoop_assignedPositions ub (sortForwarded pairs)
    { idxNum := info.idxNum, aConstraintUsage := info.aConstraintUsage, argument_count := 0 }
    hnd hzero
  have hz : assignedPositions info.aConstraintUsage = 0 := by
    rw [hu]; exact assignedPositions_zeroedUsage _
  simp only [hz, Nat.add_zero, Nat.zero_add] at hcount
  have hcols := forwardLoop_columns ub (sortForwarded pairs)
    { idxNum := info.idxNum, aConstraintUsage := info.aConstraintUsage, argument_count := 0 }
  refine ⟨(sortForwarded pairs).map Prod.fst, sortForwarded_columns_sorted pairs, hperm, ?_, ?_⟩
  · rw [hx]
    simp only
    rw [hcount]
    exact hcols
  · intro p hp hb
    obtain ⟨c, hc, hcu, hmin⟩ := chosenConstraint_spec info.aConstraint p hb
    have hin : (p, chosenConstraint info.aConstraint p) ∈ sortForwarded pairs :=
      (hS p _).mpr ⟨hp, c, hc, hcu⟩
    obtain ⟨A, B, hAB⟩ := List.append_of_mem hin
    have hmin' : ∀ k, (p, k) ∈ A ++ (p, chosenConstraint info.aConstraint p) :: B →
        chosenConstraint info.aConstraint p ≤ k := by
      intro k hk
      rw [← hAB] at hk
      obtain ⟨_, d, hd, hud⟩ := (hS p k).mp hk
      exact hmin k d hd hud
    obtain ⟨hpre, hjA, hjB⟩ := sorted_prefix_columns A B p _
      (hAB ▸ sortForwarded_sorted pairs) (hAB ▸ hnd) hmin'
    have hentry : info.aConstraintUsage[chosenConstraint info.aConstraint p]? =
        some { argvIndex := 0, omit_ := 0 } := by
      have hlt : chosenConstraint info.aConstraint p < info.aConstraint.length :=
        (List.getElem?_eq_some.mp hc).1
      rw [hu]
      unfold zeroedUsage
      rw [List.getElem?_replicate]
      simp [hlt]
    rw [hx]
    simp only
    rw [hAB, forwardLoop_at ub A B p _ _ hjA hjB]
    simp only
    rw [hentry, ← hAB] at *
    rw [← hpre]
    by_cases hbit : (columnLoop ub (info.idxNum, 0) (A.map Prod.fst)).1 &&& shl1 ub p = 0
    · simp only [hbit, if_true, Option.map_some']
    · simp only [hbit, if_false]

/-! ## Planning: where the estimate stops falling -/

/-- From 31740 to 31741 the quotient stays the same. -/
theorem estimate_plateau : 1000000000 / (31741 + 1) = 1000000000 / (31740 + 1) := by
  decide

/-- C1: for a table of at most 32 parameters and a successful plan from `idxNum = 0`,
when `argv` holds at position `argvIndex - 1` the value of every constraint with an
`argvIndex` and none of the values chosen for the bound parameters is NULL, `xFilter`
calls the generator with one argument per declared parameter, in declaration order:
the value of the chosen equality constraint for a bound parameter, `undefined` for the
others. -/
theorem plan_filter_round_trip {SV JS : Type} (H : Host SV JS) (ub : Nat → Nat)
    (vtab : VTab JS) (info : sqlite3_index_info) (cursor : Cursor JS) (db : Database)
    (argv : List SV) (value : Nat → SV)
    (hpc : vtab.parameter_count ≤ 32) (hzero : info.idxNum = 0)
    (hlen : info.aConstraintUsage.length = info.aConstraint.length)
    (hok : (xBestIndex ub vtab info).status = SQLITE_OK)
    (hargv : ∀ j u, (xBestIndex ub vtab info).output.aConstraintUsage[j]? = some u →
      u.argvIndex ≠ 0 → argv[u.argvIndex - 1]? = some (value j))
    (hnonnull : ∀ i, i < vtab.parameter_count → bound info.aConstraint i →
      H.IsNull (H.GetValueJS (value (chosenConstraint info.aConstraint i)) vtab.safe_ints)
        = false) :
    ∃ r, xFilter H ub vtab cursor db (xBestIndex ub vtab info).output.idxNum argv = some r ∧
      r.generatorCall = some ((List.range vtab.parameter_count).map (fun i =>
        if bound info.aConstraint i then
          H.GetValueJS (value (chosenConstraint info.aConstraint i)) vtab.safe_ints
        else H.Undefined)) := by
  have hno := no_offending_of_ok ub vtab info hok
  obtain ⟨_, _, _, _, _, hassigned, _⟩ := xBestIndex_plan ub vtab info hpc hzero hno
  have hbits := plan_treatedAsBound_iff ub vtab info hpc hzero hok
  apply xFilter_calls_generator
  by_cases hpc0 : vtab.parameter_count = 0
  · rw [if_neg (not_not.mpr hpc0), hpc0]
    rfl
  · rw [if_pos hpc0]
    have h0 : argvPosition ub (xBestIndex ub vtab info).output.idxNum 0 = 0 := rfl
    have hall := convertArgs_all H ub vtab.safe_ints (xBestIndex ub vtab info).output.idxNum
      argv (fun i =>
        if bound info.aConstraint i then
          H.GetValueJS (value (chosenConstraint info.aConstraint i)) vtab.safe_ints
        else H.Undefined) vtab.parameter_count 0 [] ?_
    · rw [h0, List.nil_append, ← List.range_eq_range'] at hall
      exact hall
    · intro i _ hi
      have hi' : i < vtab.parameter_count := by omega
      refine ⟨?_, ?_⟩
      · intro hb
        have hbound : bound info.aConstraint i := (hbits i hi').mp hb
        have hpos : argvPosition ub (xBestIndex ub vtab info).output.idxNum i =
            countBelow (fun b => decide (bound info.aConstraint b)) i := by
          unfold argvPosition
          apply countBelow_congr
          intro j hj
          exact decide_eq_decide.mpr (hbits j (by omega))
        have hval := hargv _ _ (hassigned i hi' hbound hlen) (by simp)
        simp only [Nat.add_sub_cancel] at hval
        refine ⟨_, ?_, hnonnull i hi' hbound, ?_⟩
        · rw [hpos]; exact hval
        · simp only [hbound, if_true]
      · intro hnb
        have hbound : ¬ bound info.aConstraint i := fun h => hnb ((hbits i hi').mpr h)
        simp only [hbound, if_false]

/-- Witness of C1 on the example plan: the generator receives `a = 10`, `b` missing
and `c = 30`, the value of constraint 0 and not of its duplicate. -/
theorem plan_filter_round_trip_witness :
    (xBestIndex sampleShift sampleTable3 (sampleInfo sampleConstraints)).status = SQLITE_OK ∧
    ∃ r, xFilter sampleHost sampleShift sampleTable3 (xOpen SampleJS) sampleDatabase
        (xBestIndex sampleShift sampleTable3 (sampleInfo sampleConstraints)).output.idxNum
        [some 10, some 30] = some r ∧
      r.generatorCall =
        some [SampleJS.number 10, SampleJS.undefined, SampleJS.number 30] := by
  refine ⟨by decide, ?_⟩
  have husage : (xBestIndex sampleShift sampleTable3
      (sampleInfo sampleConstraints)).output.aConstraintUsage =
      [{ argvIndex := 2, omit_ := 1 }, { argvIndex := 1, omit_ := 1 },
       { argvIndex := 0, omit_ := 0 }, { argvIndex := 0, omit_ := 0 },
       { argvIndex := 0, omit_ := 0 }] := by decide
  have h := plan_filter_round_trip sampleHost sampleShift sampleTable3
    (sampleInfo sampleConstraints) (xOpen SampleJS) sampleDatabase [some 10, some 30]
    sampleValues (by decide) rfl (by decide) (by decide)
    (by
      intro j u hu hne
      rw [husage] at hu
      have hj : j < 5 := by
        by_contra hge
        rw [List.getElem?_eq_none (by simp; omega)] at hu
        exact Option.noConfusion hu
      interval_cases j <;> simp at hu <;> subst hu <;> first | rfl | exact absurd rfl hne)
    (by
      intro i hi _
      have hi3 : i < 3 := hi
      interval_cases i <;> decide)
  have hlist : (List.range sampleTable3.parameter_count).map (fun i =>
      if bound (sampleInfo sampleConstraints).aConstraint i then
        sampleHost.GetValueJS
          (sampleValues (chosenConstraint (sampleInfo sampleConstraints).aConstraint i))
          sampleTable3.safe_ints
      else sampleHost.Undefined) =
      [SampleJS.number 10, SampleJS.undefined, SampleJS.number 30] := by decide
  rw [hlist] at h
  exact h

/-- C2: when a parameter that `xFilter` treats as bound has a NULL value, `xFilter`
returns `SQLITE_OK` without calling the generator, the cursor's `done` flag is true,
`xEof` reports the end of the scan, the session is untouched, and the scan visits no
row, whatever the fuel. -/
theorem xFilter_null_short_circuit {SV JS : Type} (H : Host SV JS) (ub : Nat → Nat)
    (vtab : VTab JS) (cursor : Cursor JS) (db : Database) (idxNum : Nat) (argv : List SV)
    (i : Nat) (v : SV) (hi : i < vtab.parameter_count)
    (hb : treatedAsBound ub idxNum i)
    (hv : argv[argvPosition ub idxNum i]? = some v)
    (hnull : H.IsNull (H.GetValueJS v vtab.safe_ints) = true) :
    ∃ r, xFilter H ub vtab cursor db idxNum argv = some r ∧
      r.status = SQLITE_OK ∧ r.generatorCall = none ∧ r.cursor.done = true ∧
      xEof r.cursor = 1 ∧ r.db = db ∧
      ∀ fuel, scan H ub vtab cursor db idxNum argv fuel = some [] := by
  have hpc : vtab.parameter_count ≠ 0 := by omega
  have hconv := convertArgs_null H ub vtab.safe_ints idxNum argv i v hb hv hnull
    vtab.parameter_count 0 [] (Nat.zero_le _) (by omega)
  have h0 : argvPosition ub idxNum 0 = 0 := rfl
  rw [h0] at hconv
  have hx : xFilter H ub vtab cursor db idxNum argv =
      some { status := SQLITE_OK, cursor := { cursor with done := true }, db := db,
             generatorCall := none } := by
    unfold xFilter
    simp only [if_pos hpc, hconv]
  refine ⟨_, hx, rfl, rfl, rfl, by simp [xEof], rfl, ?_⟩
  intro fuel
  unfold scan
  rw [hx]
  simp only [if_true]
  cases fuel with
  | zero => simp [scanRows]
  | succ f => simp [scanRows, xEof]

/-- Witness of C2: the scenario's table asked for `id = NULL`. -/
theorem xFilter_null_short_circuit_witness :
    ∃ r, xFilter sampleHost sampleShift sampleTable (xOpen SampleJS) sampleDatabase 1 [none] =
        some r ∧
      r.status = SQLITE_OK ∧ r.generatorCall = none ∧ r.cursor.done = true ∧
      xEof r.cursor = 1 ∧ r.db = sampleDatabase ∧
      ∀ fuel, scan sampleHost sampleShift sampleTable (xOpen SampleJS) sampleDatabase 1 [none]
        fuel = some [] :=
  xFilter_null_short_circuit sampleHost sampleShift sampleTable (xOpen SampleJS)
    sampleDatabase 1 [none] 0 none (by decide) (by decide) (by decide) (by decide)

/-- Counterexample to C3 as stated: the scenario's scan for `id = 7` yields two rows,
whose rowids are 1 and 2, not 0 and 1. -/
theorem scan_rowids_not_from_zero :
    Option.map (List.map Prod.fst)
        (scan sampleHost sampleShift sampleTable (xOpen SampleJS) sampleDatabase 1 [some 7] 10) =
      some [1, 2] ∧
    Option.map (List.map Prod.snd)
        (scan sampleHost sampleShift sampleTable (xOpen SampleJS) sampleDatabase 1 [some 7] 10) =
      some [some (SampleJS.array [1, 10]), some (SampleJS.array [2, 20])] ∧
    Option.map (List.map Prod.fst)
        (scan sampleHost sampleShift sampleTable (xOpen SampleJS) sampleDatabase 1 [some 7] 10) ≠
      some [0, 1] := by
  decide

/-- C3 (as the code has it): in a scan whose iterator yields `n` rows, the rowids that
`xRowid` reports for those rows are `1, 2, ..., n` in order: the row `xFilter`
materialises has rowid 1 and each later row one more than the row before. -/
theorem scan_rowids {SV JS : Type} (H : Host SV JS) (ub : Nat → Nat)
    (vtab : VTab JS) (cursor : Cursor JS) (db : Database) (idxNum : Nat) (argv : List SV)
    (r0 : FilterResult JS) (args : List JS) (iterator : HostIterator JS) (n fuel : Nat)
    (hfilter : xFilter H ub vtab cursor db idxNum argv = some r0)
    (hcall : r0.generatorCall = some args)
    (hgen : vtab.generator args = some iterator)
    (hrows : producesRows iterator n) (hfuel : n ≤ fuel) :
    ∃ rows, scan H ub vtab cursor db idxNum argv fuel = some rows ∧
      rows.map Prod.fst = (List.range n).map (fun (k : Nat) => (k : Int) + 1) := by
  obtain ⟨r, hr, hr0⟩ := xFilter_generator_path H ub vtab cursor db idxNum argv r0 args
    iterator hfilter hcall hgen
  unfold scan
  rw [hfilter]
  subst hr0
  simp only
  cases n with
  | zero =>
    obtain ⟨_, v, hv⟩ := hrows
    simp only [Nat.add_zero] at hv
    simp only [xNext, hv, Option.some.injEq] at hr
    subst hr
    refine ⟨_, rfl, ?_⟩
    cases fuel with
    | zero => simp [scanRows]
    | succ f => simp [scanRows, xEof]
  | succ m =>
    have hp' := producesRows_tail iterator m hrows
    obtain ⟨h1, _⟩ := hrows
    obtain ⟨row, hrow⟩ := h1 0 (by omega)
    simp only [Nat.add_zero] at hrow
    simp only [xNext, hrow, Option.some.injEq] at hr
    subst hr
    refine ⟨_, rfl, ?_⟩
    have hrec := scanRows_rowids m fuel
      { iterator := some { iterator with calls := iterator.calls + 1 }
        row := some row, done := false, rowid := 0 + 1 } db
      { iterator with calls := iterator.calls + 1 } rfl rfl hp' (by omega)
    simp only [Bool.false_eq_true, if_false] at hrec ⊢
    rw [hrec]
    apply List.map_congr_left
    intro k _
    ring

/-- Witness of C3 (as the code has it) on the scenario's scan for `id = 7`. -/
theorem scan_rowids_witness :
    producesRows (sampleIterator [[1, 10], [2, 20]]) 2 ∧
    ∃ rows, scan sampleHost sampleShift sampleTable (xOpen SampleJS) sampleDatabase 1 [some 7]
        10 = some rows ∧
      rows.map Prod.fst = (List.range 2).map (fun (k : Nat) => (k : Int) + 1) := by
  have hrows : producesRows (sampleIterator [[1, 10], [2, 20]]) 2 := by
    refine ⟨?_, SampleJS.undefined, rfl⟩
    intro k hk
    interval_cases k
    · exact ⟨SampleJS.array [1, 10], rfl⟩
    · exact ⟨SampleJS.array [2, 20], rfl⟩
  obtain ⟨r0, h0, hcall⟩ : ∃ r0,
      xFilter sampleHost sampleShift sampleTable (xOpen SampleJS) sampleDatabase 1 [some 7] =
        some r0 ∧ r0.generatorCall = some [SampleJS.number 7] := ⟨_, rfl, rfl⟩
  exact ⟨hrows, scan_rowids sampleHost sampleShift sampleTable (xOpen SampleJS) sampleDatabase 1
    [some 7] r0 [SampleJS.number 7] (sampleIterator [[1, 10], [2, 20]]) 2 10 h0 hcall rfl
    hrows (by decide)⟩

/-- Counterexample to C4 as stated: an unusable equality on `id` that follows a
greater-than on `id` gets `SQLITE_ERROR`, not `SQLITE_CONSTRAINT`. -/
theorem unusable_equality_after_non_equality :
    (∃ c ∈ (sampleInfo [{ iColumn := 0, op := 4, usable := true },
        { iColumn := 0, op := 2, usable := false }]).aConstraint,
      c.op = SQLITE_INDEX_CONSTRAINT_EQ ∧ onParameterColumn sampleTable.parameter_count c ∧
        c.usable = false) ∧
    (xBestIndex sampleShift sampleTable (sampleInfo [{ iColumn := 0, op := 4, usable := true },
        { iColumn := 0, op := 2, usable := false }])).status = SQLITE_ERROR ∧
    (xBestIndex sampleShift sampleTable (sampleInfo [{ iColumn := 0, op := 4, usable := true },
        { iColumn := 0, op := 2, usable := false }])).status ≠ SQLITE_CONSTRAINT := by
  decide

/-- C4 (as the code has it): a constraint list that holds an unusable equality on a
parameter column never gets `SQLITE_OK` and its `sqlite3_index_info` is left as it
was; the status is `SQLITE_CONSTRAINT` when every relevant constraint before that one
is an equality, and `SQLITE_CONSTRAINT` or `SQLITE_ERROR` in any case. -/
theorem xBestIndex_unusable_equality {JS : Type} (ub : Nat → Nat) (vtab : VTab JS)
    (info : sqlite3_index_info) (pre : List sqlite3_index_constraint)
    (c : sqlite3_index_constraint) (post : List sqlite3_index_constraint)
    (hcs : info.aConstraint = pre ++ c :: post)
    (heq : c.op = SQLITE_INDEX_CONSTRAINT_EQ) (hcol : onParameterColumn vtab.parameter_count c)
    (hunusable : c.usable = false) :
    (xBestIndex ub vtab info).status ≠ SQLITE_OK ∧
    ((xBestIndex ub vtab info).status = SQLITE_CONSTRAINT ∨
      (xBestIndex ub vtab info).status = SQLITE_ERROR) ∧
    (xBestIndex ub vtab info).output = info ∧
    ((∀ d ∈ pre, relevant vtab.parameter_count d → d.op = SQLITE_INDEX_CONSTRAINT_EQ) →
      (xBestIndex ub vtab info).status = SQLITE_CONSTRAINT) := by
  have hoff : offending vtab.parameter_count c := by
    refine ⟨⟨?_, ?_, hcol⟩, Or.inr hunusable⟩
    · rw [heq]; decide
    · rw [heq]; decide
  obtain ⟨p, d, q, h1, h2, h3, h4⟩ := first_offending_cases vtab.parameter_count pre c post hoff
  obtain ⟨hout, herr, hcon⟩ := xBestIndex_first_offending ub vtab info p d q (hcs.trans h1) h2 h3
  have hstat : (xBestIndex ub vtab info).status = SQLITE_CONSTRAINT ∨
      (xBestIndex ub vtab info).status = SQLITE_ERROR := by
    by_cases hd : d.op = SQLITE_INDEX_CONSTRAINT_EQ
    · exact Or.inl (hcon hd).1
    · exact Or.inr (herr hd).1
  refine ⟨?_, hstat, hout, ?_⟩
  · rcases hstat with h | h <;> rw [h] <;> decide
  · intro hall
    have hd : d.op = SQLITE_INDEX_CONSTRAINT_EQ := by
      rcases h4 with ⟨rfl, _⟩ | hmem
      · exact heq
      · exact hall d hmem h3.1
    exact (hcon hd).1

/-- Witness of C4 (as the code has it): a lone unusable equality on `id`. -/
theorem xBestIndex_unusable_equality_witness :
    (xBestIndex sampleShift sampleTable
      (sampleInfo [{ iColumn := 0, op := 2, usable := false }])).status = SQLITE_CONSTRAINT :=
  (xBestIndex_unusable_equality sampleShift sampleTable
    (sampleInfo [{ iColumn := 0, op := 2, usable := false }]) []
    { iColumn := 0, op := 2, usable := false } [] rfl rfl (by decide) rfl).2.2.2
    (by intro d hd; simp at hd)

/-- Counterexample to C5 as stated: a LIMIT constraint whose column number happens to
be that of `id` is ignored and the plan succeeds; and a greater-than on `id` that
follows an unusable equality on `id` gets `SQLITE_CONSTRAINT` and no message. -/
theorem non_equality_without_planning_violation :
    ((∃ c ∈ (sampleInfo [{ iColumn := 0, op := 73, usable := true }]).aConstraint,
        onParameterColumn sampleTable.parameter_count c ∧ c.op ≠ SQLITE_INDEX_CONSTRAINT_EQ) ∧
      (xBestIndex sampleShift sampleTable
        (sampleInfo [{ iColumn := 0, op := 73, usable := true }])).status = SQLITE_OK) ∧
    ((∃ c ∈ (sampleInfo [{ iColumn := 0, op := 2, usable := false },
          { iColumn := 0, op := 4, usable := true }]).aConstraint,
        onParameterColumn sampleTable.parameter_count c ∧ c.op ≠ SQLITE_INDEX_CONSTRAINT_EQ) ∧
      (xBestIndex sampleShift sampleTable (sampleInfo [{ iColumn := 0, op := 2, usable := false },
          { iColumn := 0, op := 4, usable := true }])).status = SQLITE_CONSTRAINT ∧
      (xBestIndex sampleShift sampleTable (sampleInfo [{ iColumn := 0, op := 2, usable := false },
          { iColumn := 0, op := 4, usable := true }])).vtab.zErrMsg = none) := by
  decide

/-- C5 (as the code has it): a constraint list that holds a relevant constraint (on a
parameter column, operator neither LIMIT nor OFFSET) whose operator is not equality
never gets `SQLITE_OK`, usable or not, and its `sqlite3_index_info` is left as it was.
The outcome is decided by the first offending constraint of the list, which is that
constraint or one before it: when it is not an equality the status is `SQLITE_ERROR`
and the message names its parameter; when it is an unusable equality the status is
`SQLITE_CONSTRAINT` and the table is left as it was.  In particular the status is
`SQLITE_ERROR` when no unusable equality on a parameter column comes before that
constraint, and the message names the parameter of that constraint when no offending
constraint comes before it. -/
theorem xBestIndex_non_equality {JS : Type} (ub : Nat → Nat) (vtab : VTab JS)
    (info : sqlite3_index_info) (pre : List sqlite3_index_constraint)
    (c : sqlite3_index_constraint) (post : List sqlite3_index_constraint)
    (hcs : info.aConstraint = pre ++ c :: post)
    (hrel : relevant vtab.parameter_count c) (hop : c.op ≠ SQLITE_INDEX_CONSTRAINT_EQ) :
    (xBestIndex ub vtab info).status ≠ SQLITE_OK ∧
    ((xBestIndex ub vtab info).status = SQLITE_ERROR ∨
      (xBestIndex ub vtab info).status = SQLITE_CONSTRAINT) ∧
    (xBestIndex ub vtab info).output = info ∧
    ((∀ d ∈ pre, ¬ (d.op = SQLITE_INDEX_CONSTRAINT_EQ ∧ d.usable = false ∧
        onParameterColumn vtab.parameter_count d)) →
      (xBestIndex ub vtab info).status = SQLITE_ERROR) ∧
    ((∀ d ∈ pre, ¬ offending vtab.parameter_count d) →
      ∃ name, vtab.parameter_names[c.iColumn.toNat]? = some name ∧
        (xBestIndex ub vtab info).vtab.zErrMsg = some (constraintMessage name)) ∧
    (∃ p d q, info.aConstraint = p ++ d :: q ∧
      (∀ x ∈ p, ¬ offending vtab.parameter_count x) ∧ offending vtab.parameter_count d ∧
      ((d = c ∧ p = pre) ∨ d ∈ pre) ∧
      (d.op ≠ SQLITE_INDEX_CONSTRAINT_EQ →
        (xBestIndex ub vtab info).status = SQLITE_ERROR ∧
        ∃ name, vtab.parameter_names[d.iColumn.toNat]? = some name ∧
          (xBestIndex ub vtab info).vtab.zErrMsg = some (constraintMessage name)) ∧
      (d.op = SQLITE_INDEX_CONSTRAINT_EQ →
        d.usable = false ∧
        (xBestIndex ub vtab info).status = SQLITE_CONSTRAINT ∧
        (xBestIndex ub vtab info).vtab = vtab)) := by
  have hoff : offending vtab.parameter_count c := ⟨hrel, Or.inl hop⟩
  obtain ⟨p, d, q, h1, h2, h3, h4⟩ := first_offending_cases vtab.parameter_count pre c post hoff
  obtain ⟨hout, herr, hcon⟩ := xBestIndex_first_offending ub vtab info p d q (hcs.trans h1) h2 h3
  have hstat : (xBestIndex ub vtab info).status = SQLITE_ERROR ∨
      (xBestIndex ub vtab info).status = SQLITE_CONSTRAINT := by
    by_cases hd : d.op = SQLITE_INDEX_CONSTRAINT_EQ
    · exact Or.inr (hcon hd).1
    · exact Or.inl (herr hd).1
  have hname : ∀ e : sqlite3_index_constraint, relevant vtab.parameter_count e →
      vtab.parameter_names[e.iColumn.toNat]? =
        some (vtab.parameter_names.getD e.iColumn.toNat "") := by
    intro e he
    have hlt : e.iColumn.toNat < vtab.parameter_names.length := by
      have h := he.2.2
      unfold onParameterColumn VTab.parameter_count at h
      omega
    rw [List.getD_eq_getElem _ _ hlt]
    exact List.getElem?_eq_getElem hlt
  refine ⟨?_, hstat, hout, ?_, ?_, ?_⟩
  · rcases hstat with h | h <;> rw [h] <;> decide
  · intro hall
    have hd : d.op ≠ SQLITE_INDEX_CONSTRAINT_EQ := by
      rcases h4 with ⟨rfl, _⟩ | hmem
      · exact hop
      · intro hd
        rcases h3.2 with h | h
        · exact h hd
        · exact hall d hmem ⟨hd, h, h3.1.2.2⟩
    exact (herr hd).1
  · intro hall
    obtain ⟨_, hmsg, _⟩ := xBestIndex_first_offending ub vtab info pre c post hcs hall hoff
    exact ⟨_, hname c hrel, (hmsg hop).2⟩
  · refine ⟨p, d, q, hcs.trans h1, h2, h3, h4, ?_, ?_⟩
    · intro hd
      exact ⟨(herr hd).1, _, hname d h3.1, (herr hd).2⟩
    · intro hd
      refine ⟨?_, hcon hd⟩
      rcases h3.2 with h | h
      · exact absurd hd h
      · exact h

/-- Witness of C5 (as the code has it): a lone greater-than on `id`, not usable; and a
greater-than on `id` behind an unusable equality behind another greater-than, where
the first greater-than decides. -/
theorem xBestIndex_non_equality_witness :
    ((xBestIndex sampleShift sampleTable
        (sampleInfo [{ iColumn := 0, op := 4, usable := false }])).status = SQLITE_ERROR ∧
      ∃ name, sampleTable.parameter_names[0]? = some name ∧
        (xBestIndex sampleShift sampleTable
          (sampleInfo [{ iColumn := 0, op := 4, usable := false }])).vtab.zErrMsg =
            some (constraintMessage name)) ∧
    (xBestIndex sampleShift sampleTable
        (sampleInfo [{ iColumn := 0, op := 4, usable := true },
          { iColumn := 0, op := 2, usable := false },
          { iColumn := 0, op := 4, usable := true }])).status ≠ SQLITE_OK ∧
    (xBestIndex sampleShift sampleTable
        (sampleInfo [{ iColumn := 0, op := 4, usable := true },
          { iColumn := 0, op := 2, usable := false },
          { iColumn := 0, op := 4, usable := true }])).status = SQLITE_ERROR :=
  have h := xBestIndex_non_equality sampleShift sampleTable
    (sampleInfo [{ iColumn := 0, op := 4, usable := false }]) []
    { iColumn := 0, op := 4, usable := false } [] rfl (by decide) (by decide)
  have g := xBestIndex_non_equality sampleShift sampleTable
    (sampleInfo [{ iColumn := 0, op := 4, usable := true },
      { iColumn := 0, op := 2, usable := false },
      { iColumn := 0, op := 4, usable := true }])
    [{ iColumn := 0, op := 4, usable := true }, { iColumn := 0, op := 2, usable := false }]
    { iColumn := 0, op := 4, usable := true } [] rfl (by decide) (by decide)
  ⟨⟨h.2.2.2.1 (by intro d hd; simp at hd), h.2.2.2.2.1 (by intro d hd; simp at hd)⟩,
    g.1, by decide⟩

/-- C6: for a table of at most 32 parameters and a successful plan from `idxNum = 0`,
with `k` bound parameters: the lowest-numbered usable equality of each bound parameter
is a constraint of its own; the one of the `n`-th smallest bound parameter (counted
from 0) gets `argvIndex = n + 1` and `omit = 1`, so the positions are `1..k`; every
other usage entry is as it was. -/
theorem xBestIndex_argument_positions {JS : Type} (ub : Nat → Nat) (vtab : VTab JS)
    (info : sqlite3_index_info) (hpc : vtab.parameter_count ≤ 32) (hzero : info.idxNum = 0)
    (hlen : info.aConstraintUsage.length = info.aConstraint.length)
    (hok : (xBestIndex ub vtab info).status = SQLITE_OK) :
    ((boundParameters vtab.parameter_count info.aConstraint).map
      (chosenConstraint info.aConstraint)).Nodup ∧
    (∀ n p, (boundParameters vtab.parameter_count info.aConstraint)[n]? = some p →
      (∃ c, info.aConstraint[chosenConstraint info.aConstraint p]? = some c ∧
        usableEqualityOn p c ∧
        ∀ k d, info.aConstraint[k]? = some d → usableEqualityOn p d →
          chosenConstraint info.aConstraint p ≤ k) ∧
      (xBestIndex ub vtab info).output.aConstraintUsage[chosenConstraint info.aConstraint p]? =
        some { argvIndex := n + 1, omit_ := 1 }) ∧
    (∀ j, j ∉ (boundParameters vtab.parameter_count info.aConstraint).map
        (chosenConstraint info.aConstraint) →
      (xBestIndex ub vtab info).output.aConstraintUsage[j]? = info.aConstraintUsage[j]?) ∧
    (xBestIndex ub vtab info).output.aConstraintUsage.length = info.aConstraint.length := by
  have hno := no_offending_of_ok ub vtab info hok
  obtain ⟨_, _, _, _, hl, hassigned, hother, _⟩ := xBestIndex_plan ub vtab info hpc hzero hno
  refine ⟨?_, ?_, ?_, ?_⟩
  · apply List.Nodup.map_on
    · intro p hp q hq hpq
      obtain ⟨c, hc, hu, _⟩ := chosenConstraint_spec info.aConstraint p
        ((boundParameters_mem _ _ p).mp hp).2
      obtain ⟨d, hd, hv, _⟩ := chosenConstraint_spec info.aConstraint q
        ((boundParameters_mem _ _ q).mp hq).2
      rw [hpq, hd] at hc
      injection hc with hc
      subst hc
      have h1 := hu.2.2
      have h2 := hv.2.2
      omega
    · unfold boundParameters
      exact (List.nodup_range _).filter _
  · intro n p hnp
    obtain ⟨hn, hget⟩ := List.getElem?_eq_some.mp hnp
    obtain ⟨h1, h2, h3⟩ := filter_range_getElem (fun i => decide (bound info.aConstraint i))
      vtab.parameter_count n hn
    have hget' : ((List.range vtab.parameter_count).filter
        (fun i => decide (bound info.aConstraint i)))[n] = p := hget
    rw [hget'] at h1 h2 h3
    have hb : bound info.aConstraint p := of_decide_eq_true h2
    refine ⟨chosenConstraint_spec info.aConstraint p hb, ?_⟩
    rw [hassigned p h1 hb hlen, h3]
  · intro j hj
    apply hother
    intro p hp hb hpj
    apply hj
    exact List.mem_map.mpr ⟨p, (boundParameters_mem _ _ p).mpr ⟨hp, hb⟩, hpj⟩
  · rw [hl, hlen]

/-- Witness of C6 on the example plan: parameter `c`, the second bound parameter, has
its first equality (constraint 0) at position 2, and the duplicate (constraint 2) is
left as it was. -/
theorem xBestIndex_argument_positions_witness :
    (boundParameters sampleTable3.parameter_count sampleConstraints)[1]? = some 2 ∧
    chosenConstraint sampleConstraints 2 = 0 ∧
    (xBestIndex sampleShift sampleTable3 (sampleInfo sampleConstraints)).output.aConstraintUsage[0]?
      = some { argvIndex := 2, omit_ := 1 } ∧
    (xBestIndex sampleShift sampleTable3 (sampleInfo sampleConstraints)).output.aConstraintUsage[2]?
      = some { argvIndex := 0, omit_ := 0 } :=
  have h := xBestIndex_argument_positions sampleShift sampleTable3 (sampleInfo sampleConstraints)
    (by decide) rfl (by decide) (by decide)
  ⟨by decide, by decide, (h.2.1 1 2 (by decide)).2, h.2.2.1 2 (by decide)⟩

/-- Counterexample to C7 as stated: with 33 parameters and a usable equality on
parameter 32, whatever a machine makes of `1 << 32`, the test `xFilter` applies to
some parameter disagrees with the constraint list. -/
theorem idxNum_bitmask_fails_beyond_32 :
    ¬ ∃ ub : Nat → Nat,
      (xBestIndex ub wideTable
        (sampleInfo [{ iColumn := 32, op := 2, usable := true }])).status = SQLITE_OK →
      ∀ i, i < wideTable.parameter_count →
        (treatedAsBound ub (xBestIndex ub wideTable
            (sampleInfo [{ iColumn := 32, op := 2, usable := true }])).output.idxNum i ↔
          bound (sampleInfo [{ iColumn := 32, op := 2, usable := true }]).aConstraint i) := by
  rintro ⟨ub, h⟩
  have hok : (xBestIndex ub wideTable
      (sampleInfo [{ iColumn := 32, op := 2, usable := true }])).status = SQLITE_OK := rfl
  have hidx : (xBestIndex ub wideTable
      (sampleInfo [{ iColumn := 32, op := 2, usable := true }])).output.idxNum =
      ub 32 % 2 ^ 32 := by
    have : (xBestIndex ub wideTable
        (sampleInfo [{ iColumn := 32, op := 2, usable := true }])).output.idxNum =
        (forwardStep ub
          { idxNum := 0
            aConstraintUsage := [{ argvIndex := 0, omit_ := 0 }]
            argument_count := 0 } (32, 0)).idxNum := rfl
    rw [this]
    unfold forwardStep shl1
    simp
  have h := h hok
  rw [hidx] at h
  have hbound : ∀ i, bound (sampleInfo [{ iColumn := 32, op := 2, usable := true }]).aConstraint i ↔
      i = 32 := by
    intro i
    unfold bound usableEqualityOn sampleInfo
    simp [SQLITE_INDEX_CONSTRAINT_EQ]
    omega
  by_cases hb : ub 32 % 2 ^ 32 = 0
  · have h32 := (h 32 (by decide)).mpr ((hbound 32).mpr rfl)
    unfold treatedAsBound at h32
    rw [hb] at h32
    simp at h32
  · obtain ⟨j, hj⟩ := Nat.ne_zero_implies_bit_true hb
    have hj32 : j < 32 := by
      by_contra hge
      have hlt : ub 32 % 2 ^ 32 < 2 ^ j :=
        lt_of_lt_of_le (Nat.mod_lt _ (by positivity)) (Nat.pow_le_pow_right (by decide) (by omega))
      rw [Nat.testBit_lt_two_pow hlt] at hj
      exact Bool.noConfusion hj
    have htb : treatedAsBound ub (ub 32 % 2 ^ 32) j :=
      (treatedAsBound_iff_testBit ub _ hj32).mpr hj
    have := (hbound j).mp ((h j (by
      have : wideTable.parameter_count = 33 := by decide
      omega)).mp htb)
    omega

/-- C7 (as the code has it): for a table of at most 32 parameters and a successful plan
from `idxNum = 0`, `xFilter` treats parameter `i` as bound exactly when the list holds
a usable equality on it; no other bit of `idxNum` is set, and `idxNum` fits 32
bits. -/
theorem xBestIndex_idxNum_bitmask {JS : Type} (ub : Nat → Nat) (vtab : VTab JS)
    (info : sqlite3_index_info) (hpc : vtab.parameter_count ≤ 32) (hzero : info.idxNum = 0)
    (hok : (xBestIndex ub vtab info).status = SQLITE_OK) :
    (∀ i, i < vtab.parameter_count →
      (treatedAsBound ub (xBestIndex ub vtab info).output.idxNum i ↔
        bound info.aConstraint i)) ∧
    (∀ b, (xBestIndex ub vtab info).output.idxNum.testBit b = true →
      b < vtab.parameter_count ∧ bound info.aConstraint b) ∧
    (xBestIndex ub vtab info).output.idxNum < 2 ^ 32 := by
  have hbits := plan_idxNum_testBit ub vtab info hpc hzero hok
  refine ⟨plan_treatedAsBound_iff ub vtab info hpc hzero hok, ?_, ?_⟩
  · intro b hb
    rw [hbits b] at hb
    exact of_decide_eq_true hb
  · apply Nat.lt_pow_two_of_testBit
    intro i hi
    rw [hbits i]
    have : ¬ i < vtab.parameter_count := by omega
    simp [this]

/-- Witness of C7 (as the code has it) on the example plan: `idxNum` is 5, parameter
`c` is treated as bound and parameter `b` is not. -/
theorem xBestIndex_idxNum_bitmask_witness :
    (xBestIndex sampleShift sampleTable3 (sampleInfo sampleConstraints)).output.idxNum = 5 ∧
    (treatedAsBound sampleShift
        (xBestIndex sampleShift sampleTable3 (sampleInfo sampleConstraints)).output.idxNum 2 ↔
      bound (sampleInfo sampleConstraints).aConstraint 2) ∧
    ¬ bound (sampleInfo sampleConstraints).aConstraint 1 :=
  ⟨by decide,
   (xBestIndex_idxNum_bitmask sampleShift sampleTable3 (sampleInfo sampleConstraints)
      (by decide) rfl (by decide)).1 2 (by decide),
   by decide⟩

/-- C8: when `next()` throws inside `xNext` and no host error is pending, the assertion
of `PropagateJSError` holds, `xNext` returns `SQLITE_ERROR` and sets the pending flag;
the following `ThrowDatabaseError` clears the flag and throws no engine error, whatever
the engine handle holds. -/
theorem xNext_host_error_surfaced {JS : Type} (cursor : Cursor JS) (db : Database)
    (iterator : HostIterator JS) (hit : cursor.iterator = some iterator)
    (hthrow : iterator.results iterator.calls = NextResult.threw)
    (hpending : db.was_js_error = false) :
    PropagateJSError_asserts db ∧
    ∃ r, xNext cursor db = some r ∧ r.status = SQLITE_ERROR ∧ r.db.was_js_error = true ∧
      r.db.ThrowDatabaseError.2 = [] ∧
      r.db.ThrowDatabaseError.1.was_js_error = false ∧
      r.db.ThrowDatabaseError.1 = db := by
  refine ⟨hpending, ?_⟩
  unfold xNext
  simp only [hit, hthrow]
  refine ⟨_, rfl, rfl, rfl, ?_, ?_, ?_⟩
  · simp [Database.ThrowDatabaseError, PropagateJSError]
  · simp [Database.ThrowDatabaseError, PropagateJSError]
  · simp [Database.ThrowDatabaseError, PropagateJSError]
    cases db; simp_all

/-- Witness of C8: a cursor whose iterator throws, in a fresh session. -/
theorem xNext_host_error_surfaced_witness :
    PropagateJSError_asserts sampleDatabase ∧
    ∃ r, xNext { xOpen SampleJS with iterator := some throwingIterator } sampleDatabase = some r ∧
      r.status = SQLITE_ERROR ∧ r.db.was_js_error = true ∧
      r.db.ThrowDatabaseError.2 = [] ∧
      r.db.ThrowDatabaseError.1.was_js_error = false ∧
      r.db.ThrowDatabaseError.1 = sampleDatabase :=
  xNext_host_error_surfaced { xOpen SampleJS with iterator := some throwingIterator }
    sampleDatabase throwingIterator rfl rfl rfl

/-- C9: `Database::ThrowDatabaseError` consults exactly one channel.  With a host error
pending it clears the flag, throws nothing, and its outcome does not depend on the
engine handle; otherwise it throws exactly one engine error, built from the handle's
current message and extended code, and changes nothing.  In both cases the flag is
false afterwards. -/
theorem ThrowDatabaseError_contract (db : Database) :
    (db.was_js_error = true →
      db.ThrowDatabaseError = ({ db with was_js_error := false }, []) ∧
      ∀ h : sqlite3, ({ db with db_handle := h } : Database).ThrowDatabaseError.2 = []) ∧
    (db.was_js_error = false →
      db.ThrowDatabaseError =
        (db, [Exception.SqliteError db.db_handle.errmsg db.db_handle.extended_errcode])) ∧
    db.ThrowDatabaseError.2.length ≤ 1 ∧
    db.ThrowDatabaseError.1.was_js_error = false := by
  unfold Database.ThrowDatabaseError Database.ThrowSqliteError
  cases h : db.was_js_error <;> simp [h]

/-- C10: `close()` on an open session with live iterators throws a resource-state error
and changes nothing; on an open session that is neither busy nor iterated it throws
nothing, leaves `open` false, finalises the statements and backups, releases the
handle once and leaves the registry; on a closed session it does nothing and
succeeds. -/
theorem JS_close_contract (db : Database) (fx : Effects) :
    (db.is_open = true → 0 < db.iterators →
      db.JS_close fx = (some Exception.ResourceStateError, db, fx)) ∧
    (db.is_open = true → db.busy = false → db.iterators = 0 →
      (db.JS_close fx).1 = none ∧
      (db.JS_close fx).2.1 = { db with is_open := false, stmts := [], backups := [] } ∧
      (db.JS_close fx).2.1.is_open = false ∧
      (db.JS_close fx).2.2 =
        { in_dbs := false
          closed_stmts := fx.closed_stmts ++ db.stmts
          closed_backups := fx.closed_backups ++ db.backups
          sqlite3_close_calls := fx.sqlite3_close_calls + 1 }) ∧
    (db.is_open = false → db.JS_close fx = (none, db, fx)) := by
  refine ⟨?_, ?_, ?_⟩
  · intro ho hi
    have hne : db.iterators ≠ 0 := Nat.pos_iff_ne_zero.mp hi
    unfold Database.JS_close REQUIRE_DATABASE_NOT_BUSY REQUIRE_DATABASE_NO_ITERATORS
    cases hb : db.busy <;> simp [ho, hne]
  · intro ho hb hi
    unfold Database.JS_close REQUIRE_DATABASE_NOT_BUSY REQUIRE_DATABASE_NO_ITERATORS
      Database.CloseHandles
    simp [ho, hb, hi]
  · intro ho
    unfold Database.JS_close
    simp [ho]

/-- C11: for every open session that is not busy on entry, `busy` is false after
`Database::JS_exec` and after `Database::JS_table`, whatever the engine and the logger
do with each statement and whatever status the registration returns; and a call that
a precondition check refuses (closed, busy, live iterators) throws a resource-state
error and leaves the session, `busy` included, as it was.  While the engine runs,
`busy` is set. -/
theorem busy_flag_error_safe (db : Database) :
    (∀ script, db.is_open = true → db.busy = false → (db.JS_exec script).2.busy = false) ∧
    (∀ status, db.is_open = true → db.busy = false → (db.JS_table status).2.busy = false) ∧
    (∀ script, (db.is_open = false ∨ db.busy = true ∨
        (db.unsafe_mode = false ∧ db.iterators ≠ 0)) →
      db.JS_exec script = ([Exception.ResourceStateError], db)) ∧
    (∀ status, (db.is_open = false ∨ db.busy = true ∨ db.iterators ≠ 0) →
      db.JS_table status = ([Exception.ResourceStateError], db)) ∧
    (∀ script, (execLoop script { db with busy := true }).2.busy = true) := by
  refine ⟨?_, ?_, ?_, JS_table_refused db, ?_⟩
  · intro script ho hb
    cases hi : REQUIRE_DATABASE_NO_ITERATORS_UNLESS_UNSAFE db with
    | some e =>
      rw [JS_exec_refused db script (Or.inr (Or.inr (by rw [hi]; simp)))]
      exact hb
    | none =>
      rw [JS_exec_admitted db script ho hb hi]
      by_cases hs : (execLoop script { db with busy := true }).1 ≠ SQLITE_OK
      · rw [if_pos hs]
        exact ThrowDatabaseError_busy _
      · rw [if_neg hs]
  · intro status ho hb
    by_cases hi : db.iterators = 0
    · rw [JS_table_admitted db status ho hb hi]
    · rw [JS_table_refused db status (Or.inr (Or.inr hi))]
      exact hb
  · intro script h
    apply JS_exec_refused
    rcases h with h | h | ⟨h1, h2⟩
    · left; unfold REQUIRE_DATABASE_OPEN; simp [h]
    · right; left; unfold REQUIRE_DATABASE_NOT_BUSY; simp [h]
    · right; right
      unfold REQUIRE_DATABASE_NO_ITERATORS_UNLESS_UNSAFE REQUIRE_DATABASE_NO_ITERATORS
      simp [h1, h2]
  · intro script
    rw [execLoop_busy]

/-- Counterexample to C13 as stated: an iterator that reports `done` and then yields a
row; `xEof` is 1 after the first `xNext` and 0 after the second. -/
theorem done_flag_reset_by_later_row :
    Option.map (fun r => xEof r.1)
        (xNextTimes 1 { xOpen SampleJS with iterator := some resumingIterator } sampleDatabase) =
      some 1 ∧
    Option.map (fun r => xEof r.1)
        (xNextTimes 2 { xOpen SampleJS with iterator := some resumingIterator } sampleDatabase) =
      some 0 := by
  decide

/-- C13 (as the code has it): on a cursor whose `done` flag is true, a run of `xNext`
calls in which no `next()` returns a record with `done = false` leaves the flag true,
so `xEof` keeps reporting the end of the scan. -/
theorem done_stays_true {JS : Type} (n : Nat) :
    ∀ (cursor : Cursor JS) (db : Database) (iterator : HostIterator JS),
      cursor.iterator = some iterator → cursor.done = true →
      (∀ k, k < n → ∀ row,
        iterator.results (iterator.calls + k) ≠ NextResult.record false row) →
      ∃ c d, xNextTimes n cursor db = some (c, d) ∧ c.done = true ∧ xEof c = 1 := by
  induction n with
  | zero =>
    intro cursor db iterator _ hdone _
    exact ⟨cursor, db, rfl, hdone, by simp [xEof, hdone]⟩
  | succ n ih =>
    intro cursor db iterator hit hdone hres
    have hrest : ∀ k, k < n → ∀ row,
        ({ iterator with calls := iterator.calls + 1 } : HostIterator JS).results
          (({ iterator with calls := iterator.calls + 1 } : HostIterator JS).calls + k) ≠
          NextResult.record false row := by
      intro k hk row
      have := hres (k + 1) (by omega) row
      simpa [Nat.add_assoc, Nat.add_comm 1 k] using this
    obtain ⟨hthrew, hrecord⟩ := xNext_cases cursor db iterator hit
    unfold xNextTimes
    cases hr : iterator.results iterator.calls with
    | threw =>
      rw [hthrew hr]
      exact ih _ _ _ rfl hdone hrest
    | record done value =>
      rw [hrecord done value hr]
      have hd : done = true := by
        cases done with
        | true => rfl
        | false =>
          have := hres 0 (by omega) value
          simp only [Nat.add_zero] at this
          exact absurd hr this
      exact ih _ _ _ rfl hd hrest

/-- Witness of C13 (as the code has it): after the scenario's two rows the iterator
reports `done`; three more calls of `xNext` leave the flag true. -/
theorem done_stays_true_witness :
    ∃ c d, xNextTimes 3
        { iterator := some { sampleIterator [[1, 10], [2, 20]] with calls := 3 }
          row := some (SampleJS.array [2, 20]), done := true, rowid := 3 } sampleDatabase =
        some (c, d) ∧ c.done = true ∧ xEof c = 1 :=
  done_stays_true 3
    { iterator := some { sampleIterator [[1, 10], [2, 20]] with calls := 3 }
      row := some (SampleJS.array [2, 20]), done := true, rowid := 3 } sampleDatabase
    { sampleIterator [[1, 10], [2, 20]] with calls := 3 } rfl rfl
    (by
      intro k hk row
      interval_cases k <;> simp [sampleIterator])

/-- C14: the step function of `xNext` on a cursor that holds an iterator.  A failed
`next()` gives `SQLITE_ERROR` and leaves `row`, `done` and `rowid` as they were; a
record with `done = true` gives `SQLITE_OK`, sets `done` and leaves `row` as it was; a
record with `done = false` gives `SQLITE_OK`, stores its value as the row and clears
`done`; both successes add exactly 1 to `rowid`. -/
theorem xNext_step {JS : Type} (cursor : Cursor JS) (db : Database)
    (iterator : HostIterator JS) (hit : cursor.iterator = some iterator) :
    (iterator.results iterator.calls = NextResult.threw →
      ∃ r, xNext cursor db = some r ∧ r.status = SQLITE_ERROR ∧
        r.cursor.row = cursor.row ∧ r.cursor.done = cursor.done ∧
        r.cursor.rowid = cursor.rowid) ∧
    (∀ value, iterator.results iterator.calls = NextResult.record true value →
      ∃ r, xNext cursor db = some r ∧ r.status = SQLITE_OK ∧
        r.cursor.row = cursor.row ∧ r.cursor.done = true ∧
        r.cursor.rowid = cursor.rowid + 1 ∧ r.db = db) ∧
    (∀ value, iterator.results iterator.calls = NextResult.record false value →
      ∃ r, xNext cursor db = some r ∧ r.status = SQLITE_OK ∧
        r.cursor.row = some value ∧ r.cursor.done = false ∧
        r.cursor.rowid = cursor.rowid + 1 ∧ r.db = db) := by
  obtain ⟨hthrew, hrecord⟩ := xNext_cases cursor db iterator hit
  refine ⟨?_, ?_, ?_⟩
  · intro h
    exact ⟨_, hthrew h, rfl, rfl, rfl, rfl⟩
  · intro value h
    exact ⟨_, hrecord true value h, rfl, rfl, rfl, rfl, rfl⟩
  · intro value h
    exact ⟨_, hrecord false value h, rfl, rfl, rfl, rfl, rfl⟩

/-- Witness of C14: the first three calls of `xNext` on an iterator that yields a row,
then throws, then reports `done`. -/
theorem xNext_step_witness :
    (∃ r, xNext { xOpen SampleJS with iterator := some faultyIterator } sampleDatabase = some r ∧
      r.status = SQLITE_OK ∧ r.cursor.row = some (SampleJS.array [1]) ∧
      r.cursor.done = false ∧ r.cursor.rowid = (xOpen SampleJS).rowid + 1 ∧
      r.db = sampleDatabase) ∧
    (Option.map (fun r => (r.status, r.cursor.row, r.cursor.done, r.cursor.rowid))
        (xNext { iterator := some { faultyIterator with calls := 1 }
                 row := some (SampleJS.array [1]), done := false, rowid := 1 }
          sampleDatabase) =
      some (SQLITE_ERROR, some (SampleJS.array [1]), false, 1)) ∧
    (Option.map (fun r => (r.status, r.cursor.row, r.cursor.done, r.cursor.rowid))
        (xNext { iterator := some { faultyIterator with calls := 2 }
                 row := some (SampleJS.array [1]), done := false, rowid := 1 }
          sampleDatabase) =
      some (SQLITE_OK, some (SampleJS.array [1]), true, 2)) :=
  ⟨(xNext_step { xOpen SampleJS with iterator := some faultyIterator } sampleDatabase
      faultyIterator rfl).2.2 (SampleJS.array [1]) rfl,
   by decide, by decide⟩

/-- C15: for two constraint lists that are rearrangements of each other, over zeroed
usage arrays and from `idxNum = 0`, `xBestIndex` succeeds on one exactly when it
succeeds on the other; and then both plans have the same `idxNum`, the same estimates,
the same number of argument positions, the same bound parameters, and the same usage
entry (`argvIndex` and `omit`) at the chosen constraint of every bound parameter. -/
theorem xBestIndex_order_independent {JS : Type} (ub : Nat → Nat) (vtab : VTab JS)
    (info1 info2 : sqlite3_index_info)
    (hperm : info1.aConstraint.Perm info2.aConstraint)
    (hz1 : info1.idxNum = 0) (hz2 : info2.idxNum = 0)
    (hu1 : info1.aConstraintUsage = zeroedUsage info1.aConstraint.length)
    (hu2 : info2.aConstraintUsage = zeroedUsage info2.aConstraint.length) :
    ((xBestIndex ub vtab info1).status = SQLITE_OK ↔
      (xBestIndex ub vtab info2).status = SQLITE_OK) ∧
    ((xBestIndex ub vtab info1).status = SQLITE_OK →
      (xBestIndex ub vtab info1).output.idxNum = (xBestIndex ub vtab info2).output.idxNum ∧
      (xBestIndex ub vtab info1).output.estimatedCost =
        (xBestIndex ub vtab info2).output.estimatedCost ∧
      (xBestIndex ub vtab info1).output.estimatedRows =
        (xBestIndex ub vtab info2).output.estimatedRows ∧
      assignedPositions (xBestIndex ub vtab info1).output.aConstraintUsage =
        assignedPositions (xBestIndex ub vtab info2).output.aConstraintUsage ∧
      (∀ p, bound info1.aConstraint p ↔ bound info2.aConstraint p) ∧
      ∀ p, p < vtab.parameter_count → bound info1.aConstraint p →
        (xBestIndex ub vtab info1).output.aConstraintUsage[
            chosenConstraint info1.aConstraint p]? =
          (xBestIndex ub vtab info2).output.aConstraintUsage[
            chosenConstraint info2.aConstraint p]?) := by
  have hiff : (∀ c ∈ info1.aConstraint, ¬ offending vtab.parameter_count c) ↔
      (∀ c ∈ info2.aConstraint, ¬ offending vtab.parameter_count c) := by
    constructor
    · intro h c hc
      exact h c (hperm.mem_iff.mpr hc)
    · intro h c hc
      exact h c (hperm.mem_iff.mp hc)
  refine ⟨?_, ?_⟩
  · rw [xBestIndex_ok_iff, xBestIndex_ok_iff]
    exact hiff
  · intro hok
    have hno1 := no_offending_of_ok ub vtab info1 hok
    have hno2 := hiff.mp hno1
    obtain ⟨cols1, hs1, hp1, hm1, he1⟩ := xBestIndex_chosen_entry ub vtab info1 hno1 hu1
    obtain ⟨cols2, hs2, hp2, hm2, he2⟩ := xBestIndex_chosen_entry ub vtab info2 hno2 hu2
    have hcols : cols1 = cols2 := by
      apply List.eq_of_perm_of_sorted _ hs1 hs2
      exact hp1.trans (((hperm.filter _).map _).trans hp2.symm)
    subst hcols
    obtain ⟨c1, r1, _, _⟩ := xBestIndex_estimate ub vtab info1 hno1 hu1
    obtain ⟨c2, r2, _, _⟩ := xBestIndex_estimate ub vtab info2 hno2 hu2
    rw [hz1] at hm1 he1
    rw [hz2] at hm2 he2
    have hidx : (xBestIndex ub vtab info1).output.idxNum =
        (xBestIndex ub vtab info2).output.idxNum := by
      have := hm1.trans hm2.symm
      exact congrArg Prod.fst this
    have hk : assignedPositions (xBestIndex ub vtab info1).output.aConstraintUsage =
        assignedPositions (xBestIndex ub vtab info2).output.aConstraintUsage := by
      have := hm1.trans hm2.symm
      exact congrArg Prod.snd this
    refine ⟨hidx, ?_, ?_, hk, bound_of_perm hperm, ?_⟩
    · rw [c1, c2, hk]
    · rw [r1, r2, hk]
    · intro p hp hb
      rw [he1 p hp hb, he2 p hp ((bound_of_perm hperm p).mp hb)]

/-- Witness of C15: the example constraints and the same constraints in reverse order
give the same `idxNum`, and parameter `c` has position 2 in both plans, at constraint 0
of the one and at constraint 2 of the other. -/
theorem xBestIndex_order_independent_witness :
    (chosenConstraint (sampleInfo sampleConstraints).aConstraint 2 = 0 ∧
      chosenConstraint (sampleInfo sampleConstraints.reverse).aConstraint 2 = 2) ∧
    (xBestIndex sampleShift sampleTable3 (sampleInfo sampleConstraints)).output.idxNum =
      (xBestIndex sampleShift sampleTable3 (sampleInfo sampleConstraints.reverse)).output.idxNum ∧
    (xBestIndex sampleShift sampleTable3 (sampleInfo sampleConstraints)).output.aConstraintUsage[
        chosenConstraint (sampleInfo sampleConstraints).aConstraint 2]? =
      (xBestIndex sampleShift sampleTable3
        (sampleInfo sampleConstraints.reverse)).output.aConstraintUsage[
          chosenConstraint (sampleInfo sampleConstraints.reverse).aConstraint 2]? ∧
    (xBestIndex sampleShift sampleTable3
        (sampleInfo sampleConstraints.reverse)).output.aConstraintUsage[2]? =
      some { argvIndex := 2, omit_ := 1 } :=
  have h := (xBestIndex_order_independent sampleShift sampleTable3 (sampleInfo sampleConstraints)
    (sampleInfo sampleConstraints.reverse) (List.reverse_perm sampleConstraints).symm rfl rfl
    (by decide) (by decide)).2 (by decide)
  ⟨by decide, h.1, h.2.2.2.2.2 2 (by decide) (by decide), by decide⟩

/-- C16: `xBestIndex` returns `SQLITE_OK` exactly when the list has no offending
constraint; otherwise the first offending constraint in list order decides the status
(`SQLITE_ERROR` for a non-equality, `SQLITE_CONSTRAINT` for an unusable equality) and
the `sqlite3_index_info` is left as it was; two lists that differ only in constraints
that are not relevant get the same status, message, `idxNum`, usage entries and
estimates; and a successful plan leaves the usage entry of every constraint that is
not relevant as it was. -/
theorem xBestIndex_exact_outcome {JS : Type} (ub : Nat → Nat) (vtab : VTab JS)
    (info : sqlite3_index_info) :
    ((xBestIndex ub vtab info).status = SQLITE_OK ↔
      ∀ c ∈ info.aConstraint, ¬ offending vtab.parameter_count c) ∧
    (∀ pre c post, info.aConstraint = pre ++ c :: post →
      (∀ d ∈ pre, ¬ offending vtab.parameter_count d) → offending vtab.parameter_count c →
      (xBestIndex ub vtab info).status =
        (if c.op ≠ SQLITE_INDEX_CONSTRAINT_EQ then SQLITE_ERROR else SQLITE_CONSTRAINT) ∧
      (xBestIndex ub vtab info).output = info) ∧
    (∀ ds, sameRelevant vtab.parameter_count info.aConstraint ds →
      (xBestIndex ub vtab { info with aConstraint := ds }).status =
        (xBestIndex ub vtab info).status ∧
      (xBestIndex ub vtab { info with aConstraint := ds }).vtab =
        (xBestIndex ub vtab info).vtab ∧
      (xBestIndex ub vtab { info with aConstraint := ds }).output.idxNum =
        (xBestIndex ub vtab info).output.idxNum ∧
      (xBestIndex ub vtab { info with aConstraint := ds }).output.aConstraintUsage =
        (xBestIndex ub vtab info).output.aConstraintUsage ∧
      (xBestIndex ub vtab { info with aConstraint := ds }).output.estimatedCost =
        (xBestIndex ub vtab info).output.estimatedCost ∧
      (xBestIndex ub vtab { info with aConstraint := ds }).output.estimatedRows =
        (xBestIndex ub vtab info).output.estimatedRows) ∧
    ((xBestIndex ub vtab info).status = SQLITE_OK →
      ∀ (j : Nat) c, info.aConstraint[j]? = some c → ¬ relevant vtab.parameter_count c →
        (xBestIndex ub vtab info).output.aConstraintUsage[j]? = info.aConstraintUsage[j]?) := by
  refine ⟨xBestIndex_ok_iff ub vtab info, ?_, ?_, ?_⟩
  · intro pre c post hcs hpre hc
    obtain ⟨hout, herr, hcon⟩ := xBestIndex_first_offending ub vtab info pre c post hcs hpre hc
    refine ⟨?_, hout⟩
    by_cases heq : c.op = SQLITE_INDEX_CONSTRAINT_EQ
    · rw [if_neg (not_not.mpr heq)]
      exact (hcon heq).1
    · rw [if_pos heq]
      exact (herr heq).1
  · intro ds hds
    have hc := collect_sameRelevant vtab.parameter_names info.aConstraint ds hds 0 []
    unfold xBestIndex
    simp only [← hc]
    cases collect vtab.parameter_names info.aConstraint 0 [] with
    | fail status msg => exact ⟨rfl, rfl, rfl, rfl, rfl, rfl⟩
    | forwarded pairs => exact ⟨rfl, rfl, rfl, rfl, rfl, rfl⟩
  · intro hok j c hj hrel
    have hno := no_offending_of_ok ub vtab info hok
    obtain ⟨pairs, _, hsnd, _, _, hx⟩ := xBestIndex_ok_form ub vtab info hno
    rw [hx]
    simp only
    apply forwardLoop_untouched
    intro hmem
    obtain ⟨d, hd, hdrel⟩ := hsnd j hmem
    rw [hj] at hd
    injection hd with hd
    subst hd
    exact hrel hdrel

end BetterSqlite3
